import Mathlib

/-!
Verification development for the script-line classification engine, its
undo/redo history, and the range-tag annotator of the story-db editor.

The TypeScript source is embedded shallowly:

* JS strings are Lean `String` (a list of characters; the source's UTF-16
  offsets become character offsets, which is immaterial to the properties
  proved here).
* `Set`/`Map` collaborators are embedded as lists with membership tests and
  as lookup functions (`String → Option LineClassification` for the
  line-rule map, which is how the source consumes the map: only `get`).
* Asynchronous backing-store calls (`supabase.from(...).upsert/insert/delete`)
  are embedded as explicit outcome records passed to the state-transition
  functions: the outcome says whether the call succeeded and which row the
  store returned, mirroring exactly the data the source reads back.
* React `useState` setters become explicit state passing over a record of
  the component's parser-related state.
-/

/-! ## Characters, trimming, line splitting -/

/-- The JS `String.prototype.trim` whitespace class (WhiteSpace ∪
LineTerminator code points). -/
def isJsWhitespace (c : Char) : Bool :=
  c = ' ' || c = '\t' || c = '\n' || c = '\r' ||
  c.toNat = 0x0b || c.toNat = 0x0c || c.toNat = 0xa0 || c.toNat = 0x1680 ||
  (decide (0x2000 ≤ c.toNat) && decide (c.toNat ≤ 0x200a)) ||
  c.toNat = 0x2028 || c.toNat = 0x2029 || c.toNat = 0x202f || c.toNat = 0x205f ||
  c.toNat = 0x3000 || c.toNat = 0xfeff

/-- Trim JS-style whitespace from both ends of a character list. -/
def jsTrimList (cs : List Char) : List Char :=
  ((cs.dropWhile isJsWhitespace).reverse.dropWhile isJsWhitespace).reverse

/-- Embedding of `line.trim()`. -/
def jsTrim (s : String) : String :=
  String.mk (jsTrimList s.data)

/-- Embedding of `rawText.replace(/\r\n?/g, '\n')`. -/
def normalizeNewlines : List Char → List Char
  | [] => []
  | '\r' :: '\n' :: rest => '\n' :: normalizeNewlines rest
  | '\r' :: rest => '\n' :: normalizeNewlines rest
  | c :: rest => c :: normalizeNewlines rest

/-- Embedding of `.split('\n')` (JS split always yields at least one piece). -/
def splitOnNewline : List Char → List (List Char)
  | [] => [[]]
  | c :: rest =>
    if c = '\n' then [] :: splitOnNewline rest
    else
      match splitOnNewline rest with
      | [] => [[c]]
      | line :: lines => (c :: line) :: lines

/-- Bool test that `needle` is a prefix of `hay`. -/
def isPrefixList : List Char → List Char → Bool
  | [], _ => true
  | _ :: _, [] => false
  | a :: as, b :: bs => a = b && isPrefixList as bs

/-- Bool test that `needle` occurs contiguously inside `hay`
(JS `String.prototype.includes`). -/
def isInfixList (needle : List Char) : List Char → Bool
  | [] => isPrefixList needle []
  | c :: rest => isPrefixList needle (c :: rest) || isInfixList needle rest

/-- Embedding of `hay.includes(sub)`. -/
def jsIncludes (hay sub : String) : Bool :=
  isInfixList sub.data hay.data

/-! ## The line classifier (`parseScriptLines` and helpers) -/

inductive LineClassification
  | speaker
  | direction
  | location
  deriving DecidableEq

inductive ParsedLineKind
  | dialogue
  | direction
  | location
  deriving DecidableEq

structure ParsedLineRow where
  kind : ParsedLineKind
  speaker : String
  content : String
  sourceLine : String
  sourceRule : Option LineClassification
  deriving DecidableEq

/-- `lineRuleMap.get(line) ?? null`; the map collaborator is embedded as its
lookup function. -/
def getLineRule (lineRuleMap : String → Option LineClassification) (line : String) :
    Option LineClassification :=
  lineRuleMap line

def isNonDialogueClassification : Option LineClassification → Bool
  | some LineClassification.direction => true
  | some LineClassification.location => true
  | _ => false

/-- The source pushes `kind: lineRule` directly when the rule is
direction/location; this converts the rule to the row kind (only applied
under `isNonDialogueClassification`). -/
def nonDialogueKind : Option LineClassification → ParsedLineKind
  | some LineClassification.location => ParsedLineKind.location
  | _ => ParsedLineKind.direction

/-- The boilerplate banner test applied to the first two non-empty lines:
`lowerLine.includes('sekai viewer') || lowerLine.includes('sekai vieweri')
|| line === '機能一覧'`. -/
def isBoilerplateLine (line : String) : Bool :=
  let lowerLine := String.mk (line.data.map Char.toLower)
  jsIncludes lowerLine "sekai viewer" || jsIncludes lowerLine "sekai vieweri" ||
    line = "機能一覧"

/-- The stateful `filter` callback of `splitAndFilterLines`: drops empty
lines (without advancing the non-empty counter), applies the banner filter
while the counter is below 2, then drops blocked terms. -/
def dropBannerAndBlocked (blockedTerms : List String) : Nat → List String → List String
  | _, [] => []
  | n, line :: rest =>
    if line = "" then dropBannerAndBlocked blockedTerms n rest
    else if n < 2 ∧ isBoilerplateLine line = true then
      dropBannerAndBlocked blockedTerms (n + 1) rest
    else if line ∈ blockedTerms then
      dropBannerAndBlocked blockedTerms (n + 1) rest
    else
      line :: dropBannerAndBlocked blockedTerms (n + 1) rest

/-- Embedding of `splitAndFilterLines`: normalize line endings, split,
trim each line, then run the stateful filter. -/
def splitAndFilterLines (rawText : String) (blockedTerms : List String) : List String :=
  let normalizedLines :=
    (splitOnNewline (normalizeNewlines rawText.data)).map fun cs => String.mk (jsTrimList cs)
  dropBannerAndBlocked blockedTerms 0 normalizedLines

/-- The cursor loop of `parseScriptLines`, consuming one or two lines per
step exactly as the source does.  The loop is driven by a fuel counter so
that the recursion is structural (and hence computes by reduction); claim
C9 proves the fuel is irrelevant once it reaches the number of lines. -/
def parseLoopFuel (lineRuleMap : String → Option LineClassification)
    (knownSpeakers : List String) : Nat → List String → List ParsedLineRow
  | 0, _ => []
  | _, [] => []
  | fuel + 1, line :: rest =>
    let lineRule := getLineRule lineRuleMap line
    if isNonDialogueClassification lineRule = true then
      { kind := nonDialogueKind lineRule, speaker := "", content := line,
        sourceLine := line, sourceRule := lineRule } ::
        parseLoopFuel lineRuleMap knownSpeakers fuel rest
    else
      match rest with
      | [] =>
        [{ kind := ParsedLineKind.direction, speaker := "", content := line,
           sourceLine := line, sourceRule := lineRule }]
      | nextLine :: rest2 =>
        let nextRule := getLineRule lineRuleMap nextLine
        if (line ∈ knownSpeakers ∨ lineRule = some LineClassification.speaker) ∧
            isNonDialogueClassification nextRule = false then
          { kind := ParsedLineKind.dialogue, speaker := line, content := nextLine,
            sourceLine := line, sourceRule := lineRule } ::
            parseLoopFuel lineRuleMap knownSpeakers fuel rest2
        else if nextLine ∈ knownSpeakers ∨ nextRule = some LineClassification.speaker then
          { kind := ParsedLineKind.direction, speaker := "", content := line,
            sourceLine := line, sourceRule := lineRule } ::
            parseLoopFuel lineRuleMap knownSpeakers fuel (nextLine :: rest2)
        else if isNonDialogueClassification nextRule = false then
          { kind := ParsedLineKind.dialogue, speaker := line, content := nextLine,
            sourceLine := line, sourceRule := lineRule } ::
            parseLoopFuel lineRuleMap knownSpeakers fuel rest2
        else
          { kind := ParsedLineKind.direction, speaker := "", content := line,
            sourceLine := line, sourceRule := lineRule } ::
            parseLoopFuel lineRuleMap knownSpeakers fuel (nextLine :: rest2)

/-- The cursor loop at its natural fuel (one unit per loop iteration never
runs out, because each iteration consumes at least one line). -/
def parseLoop (lineRuleMap : String → Option LineClassification)
    (knownSpeakers : List String) (lines : List String) : List ParsedLineRow :=
  parseLoopFuel lineRuleMap knownSpeakers lines.length lines

/-- `blockedTerms.map(t => t.trim()).filter(Boolean)` (the `Set` is consumed
only through membership, so the deduplication is immaterial). -/
def normalizeTerms (terms : List String) : List String :=
  (terms.map jsTrim).filter fun t => decide (t ≠ "")

/-- Embedding of `parseScriptLines`. -/
def parseScriptLines (rawText : String) (blockedTerms : List String)
    (lineRuleMap : String → Option LineClassification)
    (speakerNames : List String) : List ParsedLineRow :=
  parseLoop lineRuleMap (normalizeTerms speakerNames)
    (splitAndFilterLines rawText (normalizeTerms blockedTerms))

/-- Embedding of `formatParsedRowsToBody`'s `.join('\n\n')`. -/
def joinBlankLine : List String → String
  | [] => ""
  | [part] => part
  | part :: rest => part ++ "\n\n" ++ joinBlankLine rest

/-- Embedding of `formatParsedRowsToBody`. -/
def formatParsedRowsToBody (rows : List ParsedLineRow) : String :=
  joinBlankLine (rows.map fun row =>
    if row.kind = ParsedLineKind.dialogue then row.speaker ++ "\n" ++ row.content
    else row.content)

/-- The lines consumed by a parsed row list: a dialogue row consumed its
speaker line and its content line, any other row consumed one line. -/
def flattenParsedRows : List ParsedLineRow → List String
  | [] => []
  | row :: rest =>
    (if row.kind = ParsedLineKind.dialogue then [row.speaker, row.content]
     else [row.content]) ++ flattenParsedRows rest

/-- Rule map used by the claim C2 counterexample: the empty string carries a
`Direction` rule. -/
def c2CounterRules : String → Option LineClassification :=
  fun s => if s = "" then some LineClassification.direction else none

/-- Rule map used by the claim C2 witness: line `b` carries a `Direction`
rule. -/
def c2WitnessRules : String → Option LineClassification :=
  fun s => if s = "b" then some LineClassification.direction else none

/-! ## The range tag annotator -/

structure BodyTagAnnotationRow where
  id : String
  tag_id : String
  thread_id : Option String
  episode_id : Option String
  start_offset : Nat
  end_offset : Nat
  selected_text : String
  created_at : String
  deriving DecidableEq

/-- Embedding of `s.slice(a, b)` for `0 ≤ a ≤ b` (clamping beyond the
string length is implicit in `take`/`drop`). -/
def jsSlice (s : String) (a b : Nat) : String :=
  String.mk ((s.data.drop a).take (b - a))

/-- Embedding of one-argument `s.slice(a)` for `0 ≤ a`. -/
def jsSliceFrom (s : String) (a : Nat) : String :=
  String.mk (s.data.drop a)

/-- Lexicographic order on character lists, the embedding of the
`localeCompare` tie-breaker (any total preorder works for the properties
proved here; we use code-point order). -/
def charListLe : List Char → List Char → Bool
  | [], _ => true
  | _ :: _, [] => false
  | a :: as, b :: bs => if a < b then true else if b < a then false else charListLe as bs

/-- The sort comparator of `bodyTagGroups`:
`(a.start_offset - b.start_offset) || (a.end_offset - b.end_offset) ||
a.created_at.localeCompare(b.created_at)`; the JS stable sort is embedded as
insertion sort by this total preorder. -/
def annLE (a b : BodyTagAnnotationRow) : Prop :=
  a.start_offset < b.start_offset ∨
    (a.start_offset = b.start_offset ∧
      (a.end_offset < b.end_offset ∨
        (a.end_offset = b.end_offset ∧
          charListLe a.created_at.data b.created_at.data = true)))

instance : DecidableRel annLE := fun a b =>
  inferInstanceAs (Decidable (a.start_offset < b.start_offset ∨
    (a.start_offset = b.start_offset ∧
      (a.end_offset < b.end_offset ∨
        (a.end_offset = b.end_offset ∧
          charListLe a.created_at.data b.created_at.data = true)))))

/-- The filter-and-sort prefix of `bodyTagGroups` (rows in range of the
current body, sorted by start, end, creation time). -/
def normalizedBodyTags (subItemBodyDraft : String)
    (rows : List BodyTagAnnotationRow) : List BodyTagAnnotationRow :=
  List.insertionSort annLE (rows.filter fun row =>
    decide (0 ≤ row.start_offset ∧ row.start_offset < row.end_offset ∧
      row.end_offset ≤ subItemBodyDraft.length))

structure BodyTagRangeGroup where
  key : String
  start : Nat
  stop : Nat
  text : String
  annotations : List BodyTagAnnotationRow
  deriving DecidableEq

/-- The group key `` `${start}-${end}` ``. -/
def spanKey (s e : Nat) : String :=
  Nat.repr s ++ "-" ++ Nat.repr e

/-- `existing.annotations.push(row)` on the first group whose key matches
(`groups.find`). -/
def appendRowToGroup (key : String) (row : BodyTagAnnotationRow) :
    List BodyTagRangeGroup → List BodyTagRangeGroup
  | [] => []
  | g :: gs =>
    if g.key = key then { g with annotations := g.annotations ++ [row] } :: gs
    else g :: appendRowToGroup key row gs

/-- One iteration of the grouping loop of `bodyTagGroups`. -/
def pushRowToGroups (subItemBodyDraft : String) (acc : List BodyTagRangeGroup)
    (row : BodyTagAnnotationRow) : List BodyTagRangeGroup :=
  let key := spanKey row.start_offset row.end_offset
  if (acc.find? fun g => g.key == key).isSome then appendRowToGroup key row acc
  else
    acc ++ [{ key := key, start := row.start_offset, stop := row.end_offset,
              text := jsSlice subItemBodyDraft row.start_offset row.end_offset,
              annotations := [row] }]

/-- Embedding of the `bodyTagGroups` memo. -/
def bodyTagGroups (subItemBodyDraft : String)
    (rows : List BodyTagAnnotationRow) : List BodyTagRangeGroup :=
  if subItemBodyDraft = "" ∨ rows = [] then []
  else (normalizedBodyTags subItemBodyDraft rows).foldl
    (pushRowToGroups subItemBodyDraft) []

inductive BodyTagPreviewSegment
  | plain (key : String) (text : String)
  | tagged (key : String) (text : String) (group : BodyTagRangeGroup)
  deriving DecidableEq

def segmentText : BodyTagPreviewSegment → String
  | BodyTagPreviewSegment.plain _ t => t
  | BodyTagPreviewSegment.tagged _ t _ => t

def segmentIsPlain : BodyTagPreviewSegment → Bool
  | BodyTagPreviewSegment.plain _ _ => true
  | BodyTagPreviewSegment.tagged _ _ _ => false

def segmentsText : List BodyTagPreviewSegment → String
  | [] => ""
  | s :: rest => segmentText s ++ segmentsText rest

/-- The group of a tagged segment, used to compare the emitted tagged
segments with the group list. -/
def segmentGroup : BodyTagPreviewSegment → Option BodyTagRangeGroup
  | BodyTagPreviewSegment.plain _ _ => none
  | BodyTagPreviewSegment.tagged _ _ g => some g

/-- The cursor loop of `bodyTagPreviewSegments` plus the trailing plain
segment. -/
def segLoop (subItemBodyDraft : String) : Nat → List BodyTagRangeGroup →
    List BodyTagPreviewSegment
  | cursor, [] =>
    if cursor < subItemBodyDraft.length then
      [BodyTagPreviewSegment.plain
        ("plain-" ++ Nat.repr cursor ++ "-" ++ Nat.repr subItemBodyDraft.length)
        (jsSliceFrom subItemBodyDraft cursor)]
    else []
  | cursor, g :: rest =>
    if g.start < cursor then segLoop subItemBodyDraft cursor rest
    else
      (if cursor < g.start then
        [BodyTagPreviewSegment.plain
          ("plain-" ++ Nat.repr cursor ++ "-" ++ Nat.repr g.start)
          (jsSlice subItemBodyDraft cursor g.start)]
       else []) ++
      BodyTagPreviewSegment.tagged ("tag-" ++ g.key)
          (jsSlice subItemBodyDraft g.start g.stop) g ::
        segLoop subItemBodyDraft g.stop rest

/-- Embedding of the `bodyTagPreviewSegments` memo. -/
def bodyTagPreviewSegments (subItemBodyDraft : String)
    (rows : List BodyTagAnnotationRow) : List BodyTagPreviewSegment :=
  if subItemBodyDraft = "" then []
  else
    let groups := bodyTagGroups subItemBodyDraft rows
    if groups = [] then [BodyTagPreviewSegment.plain "plain-all" subItemBodyDraft]
    else segLoop subItemBodyDraft 0 groups

structure BodyTagTarget where
  threadId : Option String
  episodeId : Option String
  deriving DecidableEq

structure BodyTagSelection where
  start : Nat
  stop : Nat
  selectedText : String
  deriving DecidableEq

/-- Outcome of the `insert(...).select(...).single()` backing-store call:
whether it succeeded and the store-generated id/timestamp of the returned
row (the other columns echo the payload). -/
structure InsertOutcome where
  ok : Bool
  errMsg : String
  newId : String
  newCreatedAt : String
  deriving DecidableEq

inductive AddBodyTagResult
  | skipped
  | conflict
  | duplicateNoop
  | storeFailed (msg : String)
  | added (row : BodyTagAnnotationRow)
  deriving DecidableEq

/-- The overlap test of `addBodyTagToSelection`. -/
def hasOverlapConflict (rows : List BodyTagAnnotationRow) (start stop : Nat) : Bool :=
  rows.any fun row =>
    decide (row.start_offset < stop ∧ start < row.end_offset ∧
      ¬(row.start_offset = start ∧ row.end_offset = stop))

/-- The duplicate test of `addBodyTagToSelection`. -/
def hasDuplicateTag (rows : List BodyTagAnnotationRow) (tagId : String)
    (start stop : Nat) : Bool :=
  rows.any fun row =>
    decide (row.tag_id = tagId ∧ row.start_offset = start ∧ row.end_offset = stop)

/-- Embedding of `addBodyTagToSelection`: returns the outcome and the new
in-memory annotation list. -/
def addBodyTagToSelection (bodyTagTarget : Option BodyTagTarget)
    (bodyTagSelection : Option BodyTagSelection) (tagId : String)
    (bodyTagAnnotations : List BodyTagAnnotationRow) (o : InsertOutcome) :
    AddBodyTagResult × List BodyTagAnnotationRow :=
  match bodyTagTarget, bodyTagSelection with
  | none, _ => (AddBodyTagResult.skipped, bodyTagAnnotations)
  | some _, none => (AddBodyTagResult.skipped, bodyTagAnnotations)
  | some target, some sel =>
    if hasOverlapConflict bodyTagAnnotations sel.start sel.stop = true then
      (AddBodyTagResult.conflict, bodyTagAnnotations)
    else if hasDuplicateTag bodyTagAnnotations tagId sel.start sel.stop = true then
      (AddBodyTagResult.duplicateNoop, bodyTagAnnotations)
    else if o.ok = false then
      (AddBodyTagResult.storeFailed o.errMsg, bodyTagAnnotations)
    else
      let inserted : BodyTagAnnotationRow :=
        { id := o.newId, tag_id := tagId, thread_id := target.threadId,
          episode_id := target.episodeId, start_offset := sel.start,
          end_offset := sel.stop, selected_text := sel.selectedText,
          created_at := o.newCreatedAt }
      (AddBodyTagResult.added inserted, bodyTagAnnotations ++ [inserted])

/-- A sequence of tag-addition attempts against one scope. -/
def runAdds (target : BodyTagTarget) :
    List (BodyTagSelection × String × InsertOutcome) →
    List BodyTagAnnotationRow → List BodyTagAnnotationRow
  | [], rows => rows
  | req :: rest, rows =>
    runAdds target rest
      (addBodyTagToSelection (some target) (some req.1) req.2.1 rows req.2.2).2

/-- Two annotation rows either do not overlap or occupy the identical span. -/
def NonOverlapOrIdentical (a b : BodyTagAnnotationRow) : Prop :=
  a.start_offset < b.end_offset ∧ b.start_offset < a.end_offset →
    a.start_offset = b.start_offset ∧ a.end_offset = b.end_offset

instance (a b : BodyTagAnnotationRow) : Decidable (NonOverlapOrIdentical a b) :=
  inferInstanceAs (Decidable
    (a.start_offset < b.end_offset ∧ b.start_offset < a.end_offset →
      a.start_offset = b.start_offset ∧ a.end_offset = b.end_offset))

/-- Two annotation rows differ in tag or span. -/
def DistinctTagTriple (a b : BodyTagAnnotationRow) : Prop :=
  ¬(a.tag_id = b.tag_id ∧ a.start_offset = b.start_offset ∧
    a.end_offset = b.end_offset)

/-- Existing annotation used by the claim C6 witness. -/
def c6ExistingRow : BodyTagAnnotationRow :=
  { id := "idA", tag_id := "tagA", thread_id := some "th", episode_id := none,
    start_offset := 0, end_offset := 5, selected_text := "hello", created_at := "t1" }

/-- Duplicate annotation used by the claim C10 counterexample (same tag and
span as the attempted addition). -/
def c10Row1 : BodyTagAnnotationRow :=
  { id := "id1", tag_id := "tagA", thread_id := some "th", episode_id := none,
    start_offset := 0, end_offset := 5, selected_text := "hello", created_at := "t1" }

/-- Overlapping annotation used by the claim C10 counterexample. -/
def c10Row2 : BodyTagAnnotationRow :=
  { id := "id2", tag_id := "tagB", thread_id := some "th", episode_id := none,
    start_offset := 3, end_offset := 8, selected_text := "lo wor", created_at := "t2" }

/-- Duplicate annotation used by the claim C10 witness. -/
def c10WitnessRow : BodyTagAnnotationRow :=
  { id := "idW", tag_id := "tagA", thread_id := some "th", episode_id := none,
    start_offset := 2, end_offset := 6, selected_text := "llo ", created_at := "t1" }

/-! ## The parser history component (undo/redo over the editor state) -/

structure FilterTermRow where
  id : String
  term : String
  created_at : String
  deriving DecidableEq

structure ParserLineRuleRow where
  id : String
  line_text : String
  classification : LineClassification
  created_at : String
  deriving DecidableEq

structure SpeakerProfileRow where
  id : String
  name : String
  icon_url : Option String
  speech_balloon_id : Option String
  created_at : String
  deriving DecidableEq

inductive ParserHistoryAction
  | set_filter_term (term : String) (beforeEnabled afterEnabled : Bool) (reparse : Bool)
  | set_line_rule (lineText : String)
      (beforeClassification afterClassification : Option LineClassification)
      (reparse : Bool)
  | replace_body_draft (beforeBody afterBody : String)
  deriving DecidableEq

inductive HistoryDirection
  | forward
  | backward
  deriving DecidableEq

/-- The parser-related component state (`useState` values read and written
by the history functions). -/
structure ParserState where
  filterTerms : List FilterTermRow
  lineRules : List ParserLineRuleRow
  speakerProfiles : List SpeakerProfileRow
  subItemBodyDraft : String
  parsedLines : List ParsedLineRow
  parserUndoStack : List ParserHistoryAction
  parserRedoStack : List ParserHistoryAction
  errorMsg : String
  balloonExportText : String
  deriving DecidableEq

/-- The `lineRuleMap` memo: `new Map(lineRules.map(r => [r.line_text,
r.classification]))` — on duplicate keys the last entry wins. -/
def lineRuleMapOf (rules : List ParserLineRuleRow) : String → Option LineClassification :=
  fun t => (rules.reverse.find? fun rule => rule.line_text == t).map
    fun rule => rule.classification

/-- Outcome of the single backing-store call an action application makes:
whether it succeeded, its error message on failure, the row returned by
`.maybeSingle()` (`none` embeds a `null` response), and the fallback
id/timestamp the source generates when the store returns no row. -/
structure StoreOutcome where
  ok : Bool
  errMsg : String
  filterRow : Option FilterTermRow
  lineRuleRow : Option ParserLineRuleRow
  fallbackId : String
  fallbackCreatedAt : String
  deriving DecidableEq

/-- `created_at` comparison used by the filter-term sort
(`localeCompare`, embedded as code-point order). -/
def termLE (a b : FilterTermRow) : Prop :=
  charListLe a.created_at.data b.created_at.data = true

instance : DecidableRel termLE := fun a b =>
  inferInstanceAs (Decidable (charListLe a.created_at.data b.created_at.data = true))

/-- The JS stable `sort((a, b) => a.created_at.localeCompare(b.created_at))`,
embedded as insertion sort. -/
def sortFilterTerms (rows : List FilterTermRow) : List FilterTermRow :=
  List.insertionSort termLE rows

/-- Insert a row after all rows with `created_at` not greater than its own;
where insertion sort places an element that was last in the input. -/
def insertAfterTies (row : FilterTermRow) : List FilterTermRow → List FilterTermRow
  | [] => [row]
  | r :: rest =>
    if charListLe r.created_at.data row.created_at.data = true then
      r :: insertAfterTies row rest
    else row :: r :: rest

def missingFilterTableMsg : String :=
  "parser_filter_terms テーブルが必要です。supabase/schema.sql を実行してください。"

def missingRuleTableMsg : String :=
  "parser_line_classifications テーブルが必要です。supabase/schema.sql を実行してください。"

def emptyTermMsg : String := "除去語句を入力してください。"

def nothingParsedMsg : String :=
  "解析できる本文がありませんでした。除去語句か本文を確認してください。"

/-- Embedding of `isMissingRelationError`. -/
def isMissingRelationError (message : String) : Bool :=
  jsIncludes message "relation" && jsIncludes message "does not exist"

/-- The error message shown when an upsert fails. -/
def upsertErrorShown (tableMsg : String) (o : StoreOutcome) : String :=
  if isMissingRelationError o.errMsg = true then tableMsg else o.errMsg

/-- Embedding of `applyParserResult`: re-run the classifier against the
current body and the given overrides, and either report an empty result or
install the parsed rows and the re-serialized body. -/
def applyParserResult (s : ParserState) (ruleMap : String → Option LineClassification)
    (blockedTermsOverride : Option (List String)) : ParserState :=
  let parsed := parseScriptLines s.subItemBodyDraft
    (blockedTermsOverride.getD (s.filterTerms.map fun row => row.term)) ruleMap
    (s.speakerProfiles.map fun profile => profile.name)
  if parsed = [] then { s with parsedLines := [], errorMsg := nothingParsedMsg }
  else
    { s with
      errorMsg := "", parsedLines := parsed,
      subItemBodyDraft := formatParsedRowsToBody parsed }

/-- Embedding of `isParserHistoryActionNoop`. -/
def isParserHistoryActionNoop : ParserHistoryAction → Bool
  | ParserHistoryAction.set_filter_term _ beforeEnabled afterEnabled _ =>
    beforeEnabled == afterEnabled
  | ParserHistoryAction.set_line_rule _ beforeC afterC _ => beforeC == afterC
  | ParserHistoryAction.replace_body_draft beforeBody afterBody => beforeBody == afterBody

/-- Embedding of `applyParserHistoryAction`: returns the source's boolean
(`false` exactly on a failed persistence call or an empty filter term) and
the state after the React setters that ran. -/
def applyParserHistoryAction (s : ParserState) (action : ParserHistoryAction)
    (direction : HistoryDirection) (o : StoreOutcome) : Bool × ParserState :=
  match action with
  | ParserHistoryAction.replace_body_draft beforeBody afterBody =>
    let nextBody := if direction = HistoryDirection.forward then afterBody else beforeBody
    (true,
      { s with
        errorMsg := "", balloonExportText := "", subItemBodyDraft := nextBody,
        parsedLines := parseScriptLines nextBody
          (s.filterTerms.map fun row => row.term) (lineRuleMapOf s.lineRules)
          (s.speakerProfiles.map fun profile => profile.name) })
  | ParserHistoryAction.set_filter_term term beforeEnabled afterEnabled reparse =>
    let trimmed := jsTrim term
    if trimmed = "" then (false, { s with errorMsg := emptyTermMsg })
    else
      let enableTerm := if direction = HistoryDirection.forward then afterEnabled
        else beforeEnabled
      if enableTerm = true then
        if o.ok = false then
          (false, { s with errorMsg := upsertErrorShown missingFilterTableMsg o })
        else
          let resolvedRow := o.filterRow.getD
            { id := o.fallbackId, term := trimmed, created_at := o.fallbackCreatedAt }
          let nextRows := sortFilterTerms
            ((s.filterTerms.filter fun row => decide (row.term ≠ trimmed)) ++ [resolvedRow])
          let s1 := { s with
            errorMsg := "", filterTerms := nextRows, balloonExportText := "" }
          if reparse = true then
            (true, applyParserResult s1 (lineRuleMapOf s.lineRules)
              (some (nextRows.map fun row => row.term)))
          else (true, s1)
      else
        if (s.filterTerms.find? fun row => row.term == trimmed).isSome ∧ o.ok = false then
          (false, { s with errorMsg := o.errMsg })
        else
          let nextRows := s.filterTerms.filter fun row => decide (row.term ≠ trimmed)
          let s1 := { s with
            errorMsg := "", filterTerms := nextRows, balloonExportText := "" }
          if reparse = true then
            (true, applyParserResult s1 (lineRuleMapOf s.lineRules)
              (some (nextRows.map fun row => row.term)))
          else (true, s1)
  | ParserHistoryAction.set_line_rule lineText beforeC afterC reparse =>
    let trimmed := jsTrim lineText
    if trimmed = "" then (true, s)
    else
      let nextClassification := if direction = HistoryDirection.forward then afterC
        else beforeC
      match nextClassification with
      | some c =>
        if o.ok = false then
          (false, { s with errorMsg := upsertErrorShown missingRuleTableMsg o })
        else
          let resolvedRow := o.lineRuleRow.getD
            { id := o.fallbackId, line_text := trimmed, classification := c,
              created_at := o.fallbackCreatedAt }
          let nextRules := fun t => if t = trimmed then some c else lineRuleMapOf s.lineRules t
          let nextRows :=
            (s.lineRules.filter fun rule => decide (rule.line_text ≠ trimmed)) ++ [resolvedRow]
          let s1 := { s with
            errorMsg := "", lineRules := nextRows, balloonExportText := "" }
          if reparse = true then (true, applyParserResult s1 nextRules none)
          else (true, s1)
      | none =>
        if (s.lineRules.find? fun rule => rule.line_text == trimmed).isSome ∧
            o.ok = false then
          (false, { s with errorMsg := o.errMsg })
        else
          let nextRules := fun t => if t = trimmed then none else lineRuleMapOf s.lineRules t
          let nextRows := s.lineRules.filter fun rule => decide (rule.line_text ≠ trimmed)
          let s1 := { s with
            errorMsg := "", lineRules := nextRows, balloonExportText := "" }
          if reparse = true then (true, applyParserResult s1 nextRules none)
          else (true, s1)

/-- Embedding of `commitParserHistoryAction`. -/
def commitParserHistoryAction (s : ParserState) (action : ParserHistoryAction)
    (o : StoreOutcome) : Bool × ParserState :=
  if isParserHistoryActionNoop action = true then (true, s)
  else
    let result := applyParserHistoryAction s action HistoryDirection.forward o
    if result.1 = false then (false, result.2)
    else
      (true, { result.2 with
               parserUndoStack := result.2.parserUndoStack ++ [action],
               parserRedoStack := [] })

/-- Embedding of `undoParserAction`. -/
def undoParserAction (s : ParserState) (o : StoreOutcome) : ParserState :=
  match s.parserUndoStack.getLast? with
  | none => s
  | some target =>
    let result := applyParserHistoryAction s target HistoryDirection.backward o
    if result.1 = false then result.2
    else
      { result.2 with
        parserUndoStack := result.2.parserUndoStack.dropLast,
        parserRedoStack := result.2.parserRedoStack ++ [target] }

/-- Embedding of `redoParserAction`. -/
def redoParserAction (s : ParserState) (o : StoreOutcome) : ParserState :=
  match s.parserRedoStack.getLast? with
  | none => s
  | some target =>
    let result := applyParserHistoryAction s target HistoryDirection.forward o
    if result.1 = false then result.2
    else
      { result.2 with
        parserRedoStack := result.2.parserRedoStack.dropLast,
        parserUndoStack := result.2.parserUndoStack ++ [target] }

/-- Whether applying the action re-runs the classifier through
`applyParserResult` (a `ReplaceBodyDraft` re-parses directly and
reversibly, so it does not count). -/
def actionTriggersReparse : ParserHistoryAction → Bool
  | ParserHistoryAction.set_filter_term _ _ _ reparse => reparse
  | ParserHistoryAction.set_line_rule _ _ _ reparse => reparse
  | ParserHistoryAction.replace_body_draft _ _ => false

/-- The literal text keying the action's backing-store row. -/
def actionKeyText : ParserHistoryAction → String
  | ParserHistoryAction.set_filter_term term _ _ _ => term
  | ParserHistoryAction.set_line_rule lineText _ _ _ => lineText
  | ParserHistoryAction.replace_body_draft _ _ => ""

/-- The store echoes the upserted key back in the returned row (what a
relational upsert returns). -/
def StoreEchoesAction (o : StoreOutcome) (action : ParserHistoryAction) : Prop :=
  (∀ row ∈ o.filterRow, row.term = jsTrim (actionKeyText action)) ∧
    ∀ row ∈ o.lineRuleRow, row.line_text = jsTrim (actionKeyText action)

/-- Empty editor state used by concrete history scenarios. -/
def emptyParserState : ParserState :=
  { filterTerms := [], lineRules := [], speakerProfiles := [],
    subItemBodyDraft := "", parsedLines := [], parserUndoStack := [],
    parserRedoStack := [], errorMsg := "", balloonExportText := "" }

/-- Failing history action used by the claim C4 witness. -/
def c4FailAction : ParserHistoryAction :=
  ParserHistoryAction.set_filter_term "x" false true true

/-- Failing store outcome used by the claim C4 witness. -/
def c4FailOutcome : StoreOutcome :=
  { ok := false, errMsg := "boom", filterRow := none, lineRuleRow := none,
    fallbackId := "f", fallbackCreatedAt := "t" }

/-- No-op history action used by the claim C8 witness. -/
def c8NoopAction : ParserHistoryAction :=
  ParserHistoryAction.set_line_rule "効果音" (some LineClassification.direction)
    (some LineClassification.direction) true

/-- History action of the claim C5 counterexample: enable blocked term
`zzz` with reparse. -/
def c5Action : ParserHistoryAction :=
  ParserHistoryAction.set_filter_term "zzz" false true true

/-- Starting state of the claim C5 counterexample: a body whose third line
contains the boilerplate marker. -/
def c5State : ParserState :=
  { filterTerms := [], lineRules := [], speakerProfiles := [],
    subItemBodyDraft := "a\nzzz\nsekai viewer q\nb", parsedLines := [],
    parserUndoStack := [], parserRedoStack := [], errorMsg := "",
    balloonExportText := "" }

/-- Successful store outcome for the C5 counterexample commit and redo. -/
def c5OutcomeC : StoreOutcome :=
  { ok := true, errMsg := "", filterRow := some { id := "fid", term := "zzz", created_at := "t1" },
    lineRuleRow := none, fallbackId := "x", fallbackCreatedAt := "x" }

/-- Successful store outcome for the C5 counterexample undo (a delete). -/
def c5OutcomeU : StoreOutcome :=
  { ok := true, errMsg := "", filterRow := none, lineRuleRow := none,
    fallbackId := "x", fallbackCreatedAt := "x" }

/-- Action of the claim C5 witness: set a rule without reparse. -/
def c5WitnessAction : ParserHistoryAction :=
  ParserHistoryAction.set_line_rule "x" none (some LineClassification.speaker) false

/-- Store outcome of the claim C5 witness commit and redo. -/
def c5WitnessOutcomeC : StoreOutcome :=
  { ok := true, errMsg := "",
    filterRow := none,
    lineRuleRow := some { id := "rid", line_text := "x",
                          classification := LineClassification.speaker,
                          created_at := "t1" },
    fallbackId := "f", fallbackCreatedAt := "t" }

/-- Store outcome of the claim C5 witness undo (a delete). -/
def c5WitnessOutcomeU : StoreOutcome :=
  { ok := true, errMsg := "", filterRow := none, lineRuleRow := none,
    fallbackId := "f", fallbackCreatedAt := "t" }

/-- Decimal value of a digit string (used to prove that the group keys
`` `${start}-${end}` `` are injective in the span). -/
def digitsVal (cs : List Char) : Nat :=
  cs.foldl (fun a c => a * 10 + (c.toNat - 48)) 0

/-- Strict ordering of groups by start then end. -/
def groupSpanLt (g1 g2 : BodyTagRangeGroup) : Prop :=
  g1.start < g2.start ∨ (g1.start = g2.start ∧ g1.stop < g2.stop)

/-- Invariant of every group built by `bodyTagGroups`: key, text and span
are consistent, the span is in range, and every member annotation comes
from the input and sits exactly on the group's span. -/
def GroupInv (draft : String) (allRows : List BodyTagAnnotationRow)
    (g : BodyTagRangeGroup) : Prop :=
  g.key = spanKey g.start g.stop ∧ g.start < g.stop ∧ g.stop ≤ draft.length ∧
  g.text = jsSlice draft g.start g.stop ∧ g.annotations ≠ [] ∧
  ∀ r ∈ g.annotations, r ∈ allRows ∧ r.start_offset = g.start ∧ r.end_offset = g.stop

/-- First annotation of the claim C7 counterexample (span 0..2). -/
def c7Row1 : BodyTagAnnotationRow :=
  { id := "c7a", tag_id := "tagA", thread_id := some "th", episode_id := none,
    start_offset := 0, end_offset := 2, selected_text := "ab", created_at := "t1" }

/-- Second annotation of the claim C7 counterexample (span 2..4, adjacent
to the first, not overlapping it). -/
def c7Row2 : BodyTagAnnotationRow :=
  { id := "c7b", tag_id := "tagB", thread_id := some "th", episode_id := none,
    start_offset := 2, end_offset := 4, selected_text := "cd", created_at := "t2" }

/-- Annotation of the claim C7 witness (span 0..1 of "ab"). -/
def c7wRow : BodyTagAnnotationRow :=
  { id := "c7w", tag_id := "tagA", thread_id := some "th", episode_id := none,
    start_offset := 0, end_offset := 1, selected_text := "a", created_at := "t1" }

/-- The lines a parsed row re-serializes to (speaker and content for a
dialogue row, bare content otherwise). -/
def rowLines (row : ParsedLineRow) : List String :=
  if row.kind = ParsedLineKind.dialogue then [row.speaker, row.content]
  else [row.content]

/-- The newline-split pieces of the serialized body: the rows' lines with an
empty piece between consecutive rows (from the blank-line join). -/
def bodyPieces : List ParsedLineRow → List (List Char)
  | [] => [[]]
  | [row] => (rowLines row).map String.data
  | row :: rest => (rowLines row).map String.data ++ [] :: bodyPieces rest

/-- The trimmed pieces of the serialized body as strings. -/
def bodyLines : List ParsedLineRow → List String
  | [] => [""]
  | [row] => rowLines row
  | row :: rest => rowLines row ++ "" :: bodyLines rest

/-- Input of the claim C3 counterexample: the banner sits at non-empty index
0 of the raw text but at index 1 of the serialization. -/
def c3Raw : String := "機能一覧\na\nsekai viewer z\nb"

/-! ## Claim C1: the two-speaker banner scenario -/

/-- Claim C1 counterexample: on the scenario input the classifier returns
three rows, not the claimed two — the banner line `機能一覧` is the third
non-empty line, so the boilerplate filter (first two non-empty lines only)
does not drop it and it is emitted as a direction row. -/
theorem c1_counterexample :
    ¬ ((parseScriptLines "アリス\nこんにちは\n機能一覧\nボブ\nやあ" []
          (fun _ => none) ["アリス", "ボブ"]).map
        (fun row => (row.kind, row.speaker, row.content)) =
      [(ParsedLineKind.dialogue, "アリス", "こんにちは"),
       (ParsedLineKind.dialogue, "ボブ", "やあ")]) := by
  decide

/-- Claim C1 (amended): the scenario input yields three rows — dialogue
アリス/こんにちは, then the banner line 機能一覧 kept as a direction row
(the boilerplate filter applies only to the first two non-empty lines),
then dialogue ボブ/やあ. -/
theorem c1_amended :
    parseScriptLines "アリス\nこんにちは\n機能一覧\nボブ\nやあ" []
        (fun _ => none) ["アリス", "ボブ"] =
      [{ kind := ParsedLineKind.dialogue, speaker := "アリス", content := "こんにちは",
         sourceLine := "アリス", sourceRule := none },
       { kind := ParsedLineKind.direction, speaker := "", content := "機能一覧",
         sourceLine := "機能一覧", sourceRule := none },
       { kind := ParsedLineKind.dialogue, speaker := "ボブ", content := "やあ",
         sourceLine := "ボブ", sourceRule := none }] := by
  decide

/-! ## Structural lemmas about the cursor loop -/

theorem nonDialogueKind_ne_dialogue (c : Option LineClassification) :
    nonDialogueKind c ≠ ParsedLineKind.dialogue := by
  cases c with
  | none => simp [nonDialogueKind]
  | some c' => cases c' <;> simp [nonDialogueKind]

theorem parseLoopFuel_nil (r : String → Option LineClassification) (k : List String)
    (fuel : Nat) : parseLoopFuel r k fuel [] = [] := by
  cases fuel <;> rfl

theorem parseLoopFuel_congr (r : String → Option LineClassification) (k : List String) :
    ∀ (fuel fuel' : Nat) (lines : List String), lines.length ≤ fuel →
      lines.length ≤ fuel' → parseLoopFuel r k fuel lines = parseLoopFuel r k fuel' lines := by
  intro fuel
  induction fuel with
  | zero =>
    intro fuel' lines h _
    have hnil : lines = [] := List.eq_nil_of_length_eq_zero (Nat.le_zero.mp h)
    subst hnil
    rw [parseLoopFuel_nil, parseLoopFuel_nil]
  | succ f ih =>
    intro fuel' lines h h'
    cases lines with
    | nil => rw [parseLoopFuel_nil, parseLoopFuel_nil]
    | cons line rest =>
      cases fuel' with
      | zero => simp at h'
      | succ f' =>
        have hr : rest.length ≤ f := by simpa using h
        have hr' : rest.length ≤ f' := by simpa using h'
        cases rest with
        | nil => simp only [parseLoopFuel, parseLoopFuel_nil]
        | cons nextLine rest2 =>
          have h2 : rest2.length ≤ f := Nat.le_of_succ_le (by simpa using hr)
          have h2' : rest2.length ≤ f' := Nat.le_of_succ_le (by simpa using hr')
          simp only [parseLoopFuel]
          split
          · rw [ih f' (nextLine :: rest2) hr hr']
          · split
            · rw [ih f' rest2 h2 h2']
            · split
              · rw [ih f' (nextLine :: rest2) hr hr']
              · split
                · rw [ih f' rest2 h2 h2']
                · rw [ih f' (nextLine :: rest2) hr hr']

theorem parseLoopFuel_eq_parseLoop (r : String → Option LineClassification)
    (k : List String) (fuel : Nat) (lines : List String) (h : lines.length ≤ fuel) :
    parseLoopFuel r k fuel lines = parseLoop r k lines :=
  parseLoopFuel_congr r k fuel lines.length lines h le_rfl

theorem flattenParsedRows_parseLoopFuel (r : String → Option LineClassification)
    (k : List String) :
    ∀ (fuel : Nat) (lines : List String), lines.length ≤ fuel →
      flattenParsedRows (parseLoopFuel r k fuel lines) = lines := by
  intro fuel
  induction fuel with
  | zero =>
    intro lines h
    have hnil : lines = [] := List.eq_nil_of_length_eq_zero (Nat.le_zero.mp h)
    subst hnil
    rfl
  | succ f ih =>
    intro lines h
    cases lines with
    | nil => rfl
    | cons line rest =>
      have hr : rest.length ≤ f := by simpa using h
      cases rest with
      | nil =>
        simp only [parseLoopFuel, parseLoopFuel_nil]
        split
        · simp [flattenParsedRows, nonDialogueKind_ne_dialogue]
        · simp [flattenParsedRows]
      | cons nextLine rest2 =>
        have h2 : rest2.length ≤ f := Nat.le_of_succ_le (by simpa using hr)
        simp only [parseLoopFuel]
        split
        · simp [flattenParsedRows, nonDialogueKind_ne_dialogue, ih _ hr]
        · split
          · simp [flattenParsedRows, ih _ h2]
          · split
            · simp [flattenParsedRows, ih _ hr]
            · split
              · simp [flattenParsedRows, ih _ h2]
              · simp [flattenParsedRows, ih _ hr]

theorem length_le_flattenParsedRows (rows : List ParsedLineRow) :
    rows.length ≤ (flattenParsedRows rows).length := by
  induction rows with
  | nil => simp [flattenParsedRows]
  | cons row rest ih =>
    simp only [flattenParsedRows, List.length_append, List.length_cons]
    split <;> simp <;> omega

theorem parseLoopFuel_speaker_spec (r : String → Option LineClassification)
    (k : List String) :
    ∀ (fuel : Nat) (lines : List String) (row : ParsedLineRow),
      row ∈ parseLoopFuel r k fuel lines →
      row.speaker = "" ∨ isNonDialogueClassification (r row.speaker) = false := by
  intro fuel
  induction fuel with
  | zero => intro lines row hmem; simp [parseLoopFuel] at hmem
  | succ f ih =>
    intro lines row hmem
    cases lines with
    | nil => simp [parseLoopFuel] at hmem
    | cons line rest =>
      cases rest with
      | nil =>
        rw [show parseLoopFuel r k (f + 1) [line] =
            (if isNonDialogueClassification (getLineRule r line) = true then
              ({ kind := nonDialogueKind (getLineRule r line), speaker := "", content := line,
                 sourceLine := line, sourceRule := getLineRule r line } : ParsedLineRow) ::
                parseLoopFuel r k f []
             else
              [{ kind := ParsedLineKind.direction, speaker := "", content := line,
                 sourceLine := line, sourceRule := getLineRule r line }]) from rfl] at hmem
        split at hmem
        · rcases List.mem_cons.mp hmem with hrow | hrow
          · exact Or.inl (by rw [hrow])
          · exact ih [] row hrow
        · rcases List.mem_cons.mp hmem with hrow | hrow
          · exact Or.inl (by rw [hrow])
          · simp at hrow
      | cons nextLine rest2 =>
        simp only [parseLoopFuel] at hmem
        split at hmem
        · rcases List.mem_cons.mp hmem with hrow | hrow
          · exact Or.inl (by rw [hrow])
          · exact ih _ row hrow
        · rename_i hnotnd
          have hline : isNonDialogueClassification (r line) = false := by
            simpa [getLineRule] using hnotnd
          split at hmem
          · rcases List.mem_cons.mp hmem with hrow | hrow
            · exact Or.inr (by rw [hrow]; exact hline)
            · exact ih _ row hrow
          · split at hmem
            · rcases List.mem_cons.mp hmem with hrow | hrow
              · exact Or.inl (by rw [hrow])
              · exact ih _ row hrow
            · split at hmem
              · rcases List.mem_cons.mp hmem with hrow | hrow
                · exact Or.inr (by rw [hrow]; exact hline)
                · exact ih _ row hrow
              · rcases List.mem_cons.mp hmem with hrow | hrow
                · exact Or.inl (by rw [hrow])
                · exact ih _ row hrow

/-! ## Claim C2: direction/location-ruled lines never become speakers -/

/-- Claim C2 counterexample: the claim quantifies over every line text with
a `Direction`/`Location` rule, and the empty string may carry such a rule;
every non-dialogue row carries `speaker = ""`, so the classifier does emit a
row whose `speaker` equals that ruled text. -/
theorem c2_counterexample :
    c2CounterRules "" = some LineClassification.direction ∧
      ((parseScriptLines "a" [] c2CounterRules []).map
        (fun row => row.speaker)).contains "" = true := by
  exact ⟨rfl, by decide⟩

/-- Claim C2 (amended): for every non-empty line text `l` that the rule map
classifies as `Direction` or `Location`, no row produced by
`parseScriptLines` has `speaker = l` (the empty-string exception is exactly
the placeholder `speaker` of non-dialogue rows). -/
theorem c2_amended :
    ∀ (rawText : String) (blockedTerms : List String)
      (lineRuleMap : String → Option LineClassification) (speakerNames : List String)
      (l : String), l ≠ "" →
      isNonDialogueClassification (lineRuleMap l) = true →
      ∀ row ∈ parseScriptLines rawText blockedTerms lineRuleMap speakerNames,
        row.speaker ≠ l := by
  intro raw blocked rules speakers l hne hrule row hmem heq
  rcases parseLoopFuel_speaker_spec rules (normalizeTerms speakers) _ _ row hmem with h | h
  · exact hne (by rw [← heq, h])
  · rw [heq, hrule] at h
    simp at h

/-- Claim C2 witness: a concrete application of the amended theorem — with
line `b` ruled `Direction`, the single row parsed from body `a` does not
carry speaker `b`. -/
theorem c2_witness :
    ({ kind := ParsedLineKind.direction, speaker := "", content := "a",
       sourceLine := "a", sourceRule := none } : ParsedLineRow).speaker ≠ "b" :=
  c2_amended "a" [] c2WitnessRules [] "b" (by decide) (by decide) _ (by decide)

/-! ## Claim C9: the cursor loop is total and consumes every line -/

/-- Claim C9: classification is total — the flattened output reproduces
exactly the filtered input lines (each loop iteration consumes one or two
lines and every line is consumed once), the output has at most one row per
line, and any fuel at least the number of lines yields the same result, so
the cursor loop terminates with a finite list independently of the bound. -/
theorem c9_classification_total :
    ∀ (rawText : String) (blockedTerms : List String)
      (lineRuleMap : String → Option LineClassification) (speakerNames : List String),
      flattenParsedRows (parseScriptLines rawText blockedTerms lineRuleMap speakerNames) =
          splitAndFilterLines rawText (normalizeTerms blockedTerms) ∧
        (parseScriptLines rawText blockedTerms lineRuleMap speakerNames).length ≤
          (splitAndFilterLines rawText (normalizeTerms blockedTerms)).length ∧
        ∀ fuel, (splitAndFilterLines rawText (normalizeTerms blockedTerms)).length ≤ fuel →
          parseLoopFuel lineRuleMap (normalizeTerms speakerNames) fuel
              (splitAndFilterLines rawText (normalizeTerms blockedTerms)) =
            parseScriptLines rawText blockedTerms lineRuleMap speakerNames := by
  intro raw blocked rules speakers
  refine ⟨?_, ?_, ?_⟩
  · exact flattenParsedRows_parseLoopFuel rules (normalizeTerms speakers) _
      (splitAndFilterLines raw (normalizeTerms blocked)) le_rfl
  · have hf := flattenParsedRows_parseLoopFuel rules (normalizeTerms speakers) _
      (splitAndFilterLines raw (normalizeTerms blocked)) le_rfl
    have hlen := length_le_flattenParsedRows
      (parseScriptLines raw blocked rules speakers)
    rw [show flattenParsedRows (parseScriptLines raw blocked rules speakers) =
      splitAndFilterLines raw (normalizeTerms blocked) from hf] at hlen
    exact hlen
  · intro fuel hfuel
    exact parseLoopFuel_eq_parseLoop rules (normalizeTerms speakers) fuel _ hfuel

/-- Claim C9 witness: a concrete application of the totality theorem at
fuel 5 on a one-line body. -/
theorem c9_witness :
    parseLoopFuel (fun _ => none) (normalizeTerms []) 5
        (splitAndFilterLines "あ" (normalizeTerms [])) =
      parseScriptLines "あ" [] (fun _ => none) [] :=
  (c9_classification_total "あ" [] (fun _ => none) []).2.2 5 (by decide)

/-! ## Lemmas about the tag annotator's conflict logic -/

theorem hasOverlapConflict_eq_true_iff (rows : List BodyTagAnnotationRow)
    (start stop : Nat) :
    hasOverlapConflict rows start stop = true ↔
      ∃ row ∈ rows, row.start_offset < stop ∧ start < row.end_offset ∧
        ¬(row.start_offset = start ∧ row.end_offset = stop) := by
  simp only [hasOverlapConflict, List.any_eq_true, decide_eq_true_eq]

theorem hasOverlapConflict_eq_false_iff (rows : List BodyTagAnnotationRow)
    (start stop : Nat) :
    hasOverlapConflict rows start stop = false ↔
      ∀ row ∈ rows, row.start_offset < stop → start < row.end_offset →
        row.start_offset = start ∧ row.end_offset = stop := by
  rw [← Bool.not_eq_true, hasOverlapConflict_eq_true_iff]
  constructor
  · intro h row hmem h1 h2
    by_contra hne
    exact h ⟨row, hmem, h1, h2, hne⟩
  · rintro h ⟨row, hmem, h1, h2, hne⟩
    exact hne (h row hmem h1 h2)

theorem hasDuplicateTag_eq_false_iff (rows : List BodyTagAnnotationRow)
    (tagId : String) (start stop : Nat) :
    hasDuplicateTag rows tagId start stop = false ↔
      ∀ row ∈ rows, ¬(row.tag_id = tagId ∧ row.start_offset = start ∧
        row.end_offset = stop) := by
  rw [← Bool.not_eq_true]
  simp [hasDuplicateTag, List.any_eq_true]

theorem addBodyTagToSelection_preserves_nonoverlap (target : BodyTagTarget)
    (sel : BodyTagSelection) (tagId : String) (rows : List BodyTagAnnotationRow)
    (o : InsertOutcome) (h : rows.Pairwise NonOverlapOrIdentical) :
    ((addBodyTagToSelection (some target) (some sel) tagId rows o).2).Pairwise
      NonOverlapOrIdentical := by
  simp only [addBodyTagToSelection]
  split_ifs with h1 h2 h3
  · exact h
  · exact h
  · exact h
  · refine List.pairwise_append.mpr ⟨h, List.pairwise_singleton _ _, ?_⟩
    intro a ha b hb
    simp only [List.mem_singleton] at hb
    subst hb
    have hfree := (hasOverlapConflict_eq_false_iff rows sel.start sel.stop).mp
      (Bool.not_eq_true _ ▸ h1 : hasOverlapConflict rows sel.start sel.stop = false)
    intro hover
    exact hfree a ha hover.1 hover.2

theorem runAdds_pairwise_nonoverlap (target : BodyTagTarget) :
    ∀ (reqs : List (BodyTagSelection × String × InsertOutcome))
      (rows : List BodyTagAnnotationRow),
      rows.Pairwise NonOverlapOrIdentical →
      (runAdds target reqs rows).Pairwise NonOverlapOrIdentical := by
  intro reqs
  induction reqs with
  | nil => intro rows h; exact h
  | cons req rest ih =>
    intro rows h
    exact ih _ (addBodyTagToSelection_preserves_nonoverlap target req.1 req.2.1 rows req.2.2 h)

theorem addBodyTagToSelection_preserves_distinct (target : BodyTagTarget)
    (sel : BodyTagSelection) (tagId : String) (rows : List BodyTagAnnotationRow)
    (o : InsertOutcome) (h : rows.Pairwise DistinctTagTriple) :
    ((addBodyTagToSelection (some target) (some sel) tagId rows o).2).Pairwise
      DistinctTagTriple := by
  simp only [addBodyTagToSelection]
  split_ifs with h1 h2 h3
  · exact h
  · exact h
  · exact h
  · refine List.pairwise_append.mpr ⟨h, List.pairwise_singleton _ _, ?_⟩
    intro a ha b hb
    simp only [List.mem_singleton] at hb
    subst hb
    have hfree := (hasDuplicateTag_eq_false_iff rows tagId sel.start sel.stop).mp
      (Bool.not_eq_true _ ▸ h2 : hasDuplicateTag rows tagId sel.start sel.stop = false)
    exact hfree a ha

theorem runAdds_pairwise_distinct (target : BodyTagTarget) :
    ∀ (reqs : List (BodyTagSelection × String × InsertOutcome))
      (rows : List BodyTagAnnotationRow),
      rows.Pairwise DistinctTagTriple →
      (runAdds target reqs rows).Pairwise DistinctTagTriple := by
  intro reqs
  induction reqs with
  | nil => intro rows h; exact h
  | cons req rest ih =>
    intro rows h
    exact ih _ (addBodyTagToSelection_preserves_distinct target req.1 req.2.1 rows req.2.2 h)

/-! ## Claim C6: annotation overlap conflicts -/

/-- Claim C6: `addBodyTagToSelection` reports a conflict exactly when some
existing annotation overlaps the selected half-open span without being
identical to it, a conflict changes nothing; when every overlap is
span-identical and the tag is not already present on that exact span, the
addition succeeds and appends the new row; and any sequence of additions
starting from an empty scope keeps annotations pairwise non-overlapping
except for identical spans. -/
theorem c6_annotation_nonoverlap :
    ∀ (target : BodyTagTarget) (sel : BodyTagSelection) (tagId : String)
      (rows : List BodyTagAnnotationRow) (o : InsertOutcome),
      (((addBodyTagToSelection (some target) (some sel) tagId rows o).1 =
          AddBodyTagResult.conflict) ↔
        ∃ row ∈ rows, row.start_offset < sel.stop ∧ sel.start < row.end_offset ∧
          ¬(row.start_offset = sel.start ∧ row.end_offset = sel.stop)) ∧
      ((addBodyTagToSelection (some target) (some sel) tagId rows o).1 =
          AddBodyTagResult.conflict →
        (addBodyTagToSelection (some target) (some sel) tagId rows o).2 = rows) ∧
      ((∀ row ∈ rows, row.start_offset < sel.stop → sel.start < row.end_offset →
          row.start_offset = sel.start ∧ row.end_offset = sel.stop) →
        hasDuplicateTag rows tagId sel.start sel.stop = false →
        o.ok = true →
        addBodyTagToSelection (some target) (some sel) tagId rows o =
          (AddBodyTagResult.added
            { id := o.newId, tag_id := tagId, thread_id := target.threadId,
              episode_id := target.episodeId, start_offset := sel.start,
              end_offset := sel.stop, selected_text := sel.selectedText,
              created_at := o.newCreatedAt },
           rows ++
            [{ id := o.newId, tag_id := tagId, thread_id := target.threadId,
               episode_id := target.episodeId, start_offset := sel.start,
               end_offset := sel.stop, selected_text := sel.selectedText,
               created_at := o.newCreatedAt }])) ∧
      ∀ reqs, (runAdds target reqs []).Pairwise NonOverlapOrIdentical := by
  intro target sel tagId rows o
  refine ⟨?_, ?_, ?_, ?_⟩
  · rw [← hasOverlapConflict_eq_true_iff rows sel.start sel.stop]
    simp only [addBodyTagToSelection]
    split_ifs with h1 h2 h3 <;> simp [h1]
  · intro hconf
    simp only [addBodyTagToSelection] at hconf ⊢
    split_ifs at hconf ⊢ with h1 h2 h3
    rfl
  · intro hover hdup hok
    have h1 : hasOverlapConflict rows sel.start sel.stop = false :=
      (hasOverlapConflict_eq_false_iff rows sel.start sel.stop).mpr hover
    simp only [addBodyTagToSelection, h1, hdup, hok]
    rfl
  · intro reqs
    exact runAdds_pairwise_nonoverlap target reqs [] (List.Pairwise.nil)

/-- Claim C6 witness: with one existing annotation `tagA` on `[0,5)`,
adding `tagB` on the identical span `[0,5)` succeeds and appends the row. -/
theorem c6_witness :
    addBodyTagToSelection (some { threadId := some "th", episodeId := none })
        (some { start := 0, stop := 5, selectedText := "hello" }) "tagB"
        [c6ExistingRow] { ok := true, errMsg := "", newId := "idB", newCreatedAt := "t2" } =
      (AddBodyTagResult.added
        { id := "idB", tag_id := "tagB", thread_id := some "th", episode_id := none,
          start_offset := 0, end_offset := 5, selected_text := "hello",
          created_at := "t2" },
       [c6ExistingRow,
        { id := "idB", tag_id := "tagB", thread_id := some "th", episode_id := none,
          start_offset := 0, end_offset := 5, selected_text := "hello",
          created_at := "t2" }]) :=
  (c6_annotation_nonoverlap { threadId := some "th", episodeId := none }
      { start := 0, stop := 5, selectedText := "hello" } "tagB" [c6ExistingRow]
      { ok := true, errMsg := "", newId := "idB", newCreatedAt := "t2" }).2.2.1
    (by decide) (by decide) rfl

/-! ## Claim C10: duplicate tag additions -/

/-- Claim C10 counterexample: the scope holds a duplicate (`tagA` on
`[0,5)`) but also an overlapping annotation `[3,8)`; the attempted addition
of `tagA` on `[0,5)` then reports a conflict error instead of returning
silently, because the overlap check runs before the duplicate check. -/
theorem c10_counterexample :
    (c10Row1.tag_id = "tagA" ∧ c10Row1.start_offset = 0 ∧ c10Row1.end_offset = 5) ∧
      (addBodyTagToSelection (some { threadId := some "th", episodeId := none })
          (some { start := 0, stop := 5, selectedText := "hello" }) "tagA"
          [c10Row1, c10Row2]
          { ok := true, errMsg := "", newId := "id3", newCreatedAt := "t3" }).1 =
        AddBodyTagResult.conflict := by
  decide

/-- Claim C10 (amended): if an annotation with the same tag id and exactly
the same span already exists and no existing annotation overlaps the span
without being identical to it, the addition returns a silent no-op —
nothing persisted, the in-memory set unchanged, no error; and a scope built
by any sequence of additions never holds two annotations with equal
`(tag_id, start_offset, end_offset)`. (Without the overlap proviso the call
can instead surface a conflict error, though it still changes nothing.) -/
theorem c10_duplicate_silent_noop :
    ∀ (target : BodyTagTarget) (sel : BodyTagSelection) (tagId : String)
      (rows : List BodyTagAnnotationRow) (o : InsertOutcome),
      ((∃ r ∈ rows, r.tag_id = tagId ∧ r.start_offset = sel.start ∧
          r.end_offset = sel.stop) →
        (∀ row ∈ rows, row.start_offset < sel.stop → sel.start < row.end_offset →
          row.start_offset = sel.start ∧ row.end_offset = sel.stop) →
        addBodyTagToSelection (some target) (some sel) tagId rows o =
          (AddBodyTagResult.duplicateNoop, rows)) ∧
      ∀ reqs, (runAdds target reqs []).Pairwise DistinctTagTriple := by
  intro target sel tagId rows o
  constructor
  · rintro ⟨r, hr, hdup⟩ hover
    have h1 : hasOverlapConflict rows sel.start sel.stop = false :=
      (hasOverlapConflict_eq_false_iff rows sel.start sel.stop).mpr hover
    have h2 : hasDuplicateTag rows tagId sel.start sel.stop = true := by
      simp only [hasDuplicateTag, List.any_eq_true]
      exact ⟨r, hr, by simpa using hdup⟩
    simp only [addBodyTagToSelection, h1, h2]
    rfl
  · intro reqs
    exact runAdds_pairwise_distinct target reqs [] (List.Pairwise.nil)

/-- Claim C10 witness: with the scope holding exactly `tagA` on `[2,6)`,
re-adding `tagA` on `[2,6)` is a silent no-op leaving the set unchanged. -/
theorem c10_witness :
    addBodyTagToSelection (some { threadId := some "th", episodeId := none })
        (some { start := 2, stop := 6, selectedText := "llo " }) "tagA"
        [c10WitnessRow] { ok := true, errMsg := "", newId := "id9", newCreatedAt := "t9" } =
      (AddBodyTagResult.duplicateNoop, [c10WitnessRow]) :=
  (c10_duplicate_silent_noop { threadId := some "th", episodeId := none }
      { start := 2, stop := 6, selectedText := "llo " } "tagA" [c10WitnessRow]
      { ok := true, errMsg := "", newId := "id9", newCreatedAt := "t9" }).1
    (by decide) (by decide)

/-! ## Lemmas about history application -/

theorem applyParserHistoryAction_fail_frame (s : ParserState)
    (action : ParserHistoryAction) (dir : HistoryDirection) (o : StoreOutcome)
    (h : (applyParserHistoryAction s action dir o).1 = false) :
    (applyParserHistoryAction s action dir o).2 =
      { s with errorMsg := (applyParserHistoryAction s action dir o).2.errorMsg } := by
  cases action with
  | replace_body_draft beforeBody afterBody => simp [applyParserHistoryAction] at h
  | set_filter_term term beforeEnabled afterEnabled reparse =>
    simp only [applyParserHistoryAction] at h ⊢
    split_ifs at h ⊢ <;> first | rfl | simp_all
  | set_line_rule lineText beforeC afterC reparse =>
    cases dir with
    | forward =>
      rcases afterC with _ | c <;>
        simp only [applyParserHistoryAction, reduceIte] at h ⊢ <;>
        split_ifs at h ⊢ <;> first | rfl | simp_all
    | backward =>
      rcases beforeC with _ | c <;>
        simp only [applyParserHistoryAction, reduceIte] at h ⊢ <;>
        split_ifs at h ⊢ <;> first | rfl | simp_all

/-! ## Claim C4: persistence failures are fail-closed -/

/-- Claim C4: whenever committing an action fails (which is exactly what a
failed backing-store call produces), nothing is pushed on either stack and
the whole parser state except the error message — filter terms, line rules,
body draft, parsed lines, both stacks, the balloon export — is exactly as
before; and a failed undo or redo likewise leaves everything but the error
message unchanged. -/
theorem c4_fail_closed :
    ∀ (s : ParserState) (action : ParserHistoryAction) (o : StoreOutcome),
      ((commitParserHistoryAction s action o).1 = false →
        (commitParserHistoryAction s action o).2 =
          { s with errorMsg := (commitParserHistoryAction s action o).2.errorMsg }) ∧
      (∀ target, s.parserUndoStack.getLast? = some target →
        (applyParserHistoryAction s target HistoryDirection.backward o).1 = false →
        undoParserAction s o = { s with errorMsg := (undoParserAction s o).errorMsg }) ∧
      (∀ target, s.parserRedoStack.getLast? = some target →
        (applyParserHistoryAction s target HistoryDirection.forward o).1 = false →
        redoParserAction s o = { s with errorMsg := (redoParserAction s o).errorMsg }) := by
  intro s action o
  refine ⟨?_, ?_, ?_⟩
  · intro h
    simp only [commitParserHistoryAction] at h ⊢
    split_ifs at h ⊢ with h1 h2
    exact applyParserHistoryAction_fail_frame s action HistoryDirection.forward o h2
  · intro target htarget happly
    simp only [undoParserAction, htarget]
    rw [if_pos happly]
    exact applyParserHistoryAction_fail_frame s target HistoryDirection.backward o happly
  · intro target htarget happly
    simp only [redoParserAction, htarget]
    rw [if_pos happly]
    exact applyParserHistoryAction_fail_frame s target HistoryDirection.forward o happly

/-- Claim C4 witness: committing an enable-filter-term action against a
failing store leaves everything except the error message unchanged. -/
theorem c4_witness :
    (commitParserHistoryAction emptyParserState c4FailAction c4FailOutcome).2 =
      { emptyParserState with
        errorMsg :=
          (commitParserHistoryAction emptyParserState c4FailAction c4FailOutcome).2.errorMsg } :=
  (c4_fail_closed emptyParserState c4FailAction c4FailOutcome).1 (by decide)

/-! ## Claim C8: no-op actions are suppressed -/

/-- Claim C8: committing a no-op action (equal before/after enabled flags,
classifications, or bodies) returns success and the completely unchanged
state, for every store outcome — in particular the result does not depend
on the store, which is the observable content of "performs no backing-store
call". -/
theorem c8_noop_suppression :
    ∀ (s : ParserState) (action : ParserHistoryAction) (o : StoreOutcome),
      isParserHistoryActionNoop action = true →
      commitParserHistoryAction s action o = (true, s) := by
  intro s action o h
  simp [commitParserHistoryAction, h]

/-- Claim C8 witness: committing a rule action whose before and after
classifications coincide succeeds and changes nothing, even against a
store that would fail. -/
theorem c8_witness :
    commitParserHistoryAction emptyParserState c8NoopAction
        { ok := false, errMsg := "down", filterRow := none, lineRuleRow := none,
          fallbackId := "f", fallbackCreatedAt := "t" } =
      (true, emptyParserState) :=
  c8_noop_suppression emptyParserState c8NoopAction
    { ok := false, errMsg := "down", filterRow := none, lineRuleRow := none,
      fallbackId := "f", fallbackCreatedAt := "t" } (by decide)

/-! ## Lemmas about the created-at ordering and the filter-term sort -/

theorem charListLe_total : ∀ (as bs : List Char),
    charListLe as bs = true ∨ charListLe bs as = true := by
  intro as
  induction as with
  | nil => intro bs; left; rfl
  | cons a as ih =>
    intro bs
    cases bs with
    | nil => right; rfl
    | cons b bs' =>
      simp only [charListLe]
      rcases lt_trichotomy a b with h | h | h
      · left; simp [h]
      · subst h
        simp only [lt_irrefl, if_false]
        exact ih bs'
      · right; simp [h]

theorem charListLe_trans : ∀ (as bs cs : List Char), charListLe as bs = true →
    charListLe bs cs = true → charListLe as cs = true := by
  intro as
  induction as with
  | nil => intro bs cs _ _; rfl
  | cons a as ih =>
    intro bs cs h1 h2
    cases bs with
    | nil => simp [charListLe] at h1
    | cons b bs' =>
      cases cs with
      | nil => simp [charListLe] at h2
      | cons c cs' =>
        simp only [charListLe] at h1 h2 ⊢
        rcases lt_trichotomy a b with hab | hab | hab
        · rcases lt_trichotomy b c with hbc | hbc | hbc
          · simp [lt_trans hab hbc]
          · subst hbc; simp [hab]
          · rw [if_neg (asymm hbc), if_pos hbc] at h2
            exact absurd h2 (by simp)
        · subst hab
          rw [if_neg (lt_irrefl a), if_neg (lt_irrefl a)] at h1
          rcases lt_trichotomy a c with hac | hac | hac
          · simp [hac]
          · subst hac
            simp only [lt_irrefl, if_false]
            rw [if_neg (lt_irrefl a), if_neg (lt_irrefl a)] at h2
            exact ih bs' cs' h1 h2
          · rw [if_neg (asymm hac), if_pos hac] at h2
            exact absurd h2 (by simp)
        · rw [if_neg (asymm hab), if_pos hab] at h1
          exact absurd h1 (by simp)

theorem termLE_of_charListLe {a b : FilterTermRow}
    (h : charListLe a.created_at.data b.created_at.data = true) : termLE a b := h

/-- Insertion sort of a sorted list with one element appended: the appended
element lands after all rows whose key is not greater (stability: it was
last in the input). -/
theorem sortFilterTerms_append_singleton :
    ∀ (X : List FilterTermRow) (r : FilterTermRow), X.Pairwise termLE →
      sortFilterTerms (X ++ [r]) = insertAfterTies r X := by
  intro X
  induction X with
  | nil => intro r _; rfl
  | cons x X' ih =>
    intro r hs
    have hx : ∀ y ∈ X', termLE x y := fun y hy => (List.pairwise_cons.mp hs).1 y hy
    have hX' : X'.Pairwise termLE := (List.pairwise_cons.mp hs).2
    have hstep : sortFilterTerms ((x :: X') ++ [r]) =
        List.orderedInsert termLE x (sortFilterTerms (X' ++ [r])) := rfl
    rw [hstep, ih r hX']
    by_cases hle : charListLe x.created_at.data r.created_at.data = true
    · have hxr : termLE x r := hle
      cases X' with
      | nil =>
        simp [insertAfterTies, List.orderedInsert, hle, if_pos hxr]
      | cons y Y =>
        have hxy : termLE x y := hx y (by simp)
        simp only [insertAfterTies, hle, if_true]
        by_cases hyr : charListLe y.created_at.data r.created_at.data = true
        · simp [hyr, List.orderedInsert, if_pos hxy]
        · simp [hyr, List.orderedInsert, if_pos hxr]
    · have hrx : charListLe r.created_at.data x.created_at.data = true :=
        (charListLe_total _ _).resolve_left hle
      have hflat : insertAfterTies r X' = r :: X' := by
        cases X' with
        | nil => rfl
        | cons y Y =>
          have hxy : termLE x y := hx y (by simp)
          have hyr : ¬charListLe y.created_at.data r.created_at.data = true := by
            intro hyr
            exact hle (charListLe_trans _ _ _ hxy hyr)
          simp [insertAfterTies, hyr]
      rw [hflat]
      have hnotxr : ¬termLE x r := hle
      have hox : List.orderedInsert termLE x X' = x :: X' := by
        cases X' with
        | nil => rfl
        | cons y Y => simp [List.orderedInsert, if_pos (hx y (by simp))]
      simp [List.orderedInsert, if_neg hnotxr, hox, insertAfterTies, hle]

/-- Filtering away the inserted row recovers the filtered base list. -/
theorem filter_insertAfterTies (p : FilterTermRow → Bool) (r : FilterTermRow)
    (hp : p r = false) :
    ∀ M : List FilterTermRow, (insertAfterTies r M).filter p = M.filter p := by
  intro M
  induction M with
  | nil => simp [insertAfterTies, hp]
  | cons h t ih =>
    by_cases hle : charListLe h.created_at.data r.created_at.data = true
    · simp only [insertAfterTies, hle, if_true, List.filter_cons]
      rw [ih]
    · simp [insertAfterTies, hle, List.filter_cons, hp]

/-- The filter-terms round trip for an enable action: remove the committed
row from the sorted result, re-insert it, and re-sort — the sorted result
returns. -/
theorem sort_insert_refilter (p : FilterTermRow → Bool) (X : List FilterTermRow)
    (r : FilterTermRow) (hX : X.Pairwise termLE) (hXp : ∀ row ∈ X, p row = true)
    (hpr : p r = false) :
    sortFilterTerms (((sortFilterTerms (X ++ [r])).filter p) ++ [r]) =
      sortFilterTerms (X ++ [r]) := by
  have hXid : X.filter p = X := List.filter_eq_self.mpr hXp
  have h1 : sortFilterTerms (X ++ [r]) = insertAfterTies r X :=
    sortFilterTerms_append_singleton X r hX
  have h2 : (sortFilterTerms (X ++ [r])).filter p = X := by
    rw [h1, filter_insertAfterTies p r hpr X, hXid]
  rw [h2]

/-- The filter-terms round trip for a disable action: re-insert the undone
row into the sorted remainder, then remove it again. -/
theorem sort_remove_refilter (p : FilterTermRow → Bool) (ft1 : List FilterTermRow)
    (r : FilterTermRow) (h1 : ft1.Pairwise termLE) (h1p : ∀ row ∈ ft1, p row = true)
    (hpr : p r = false) :
    (sortFilterTerms (ft1 ++ [r])).filter p = ft1 := by
  rw [sortFilterTerms_append_singleton ft1 r h1,
    filter_insertAfterTies p r hpr ft1, List.filter_eq_self.mpr h1p]

/-! ## Restoration lemmas for undo-then-redo (claim C5) -/

theorem c5_replace_restore (s : ParserState) (b a : String) (oC oU : StoreOutcome)
    (hnoop : isParserHistoryActionNoop (ParserHistoryAction.replace_body_draft b a) = false) :
    redoParserAction (undoParserAction
        (commitParserHistoryAction s (ParserHistoryAction.replace_body_draft b a) oC).2 oU) oC =
      (commitParserHistoryAction s (ParserHistoryAction.replace_body_draft b a) oC).2 := by
  simp only [isParserHistoryActionNoop] at hnoop
  simp [commitParserHistoryAction, isParserHistoryActionNoop, hnoop,
    applyParserHistoryAction, undoParserAction, redoParserAction,
    List.getLast?_concat, List.dropLast_concat]

theorem c5_filter_enable_restore (s : ParserState) (term : String) (oC oU : StoreOutcome)
    (hsorted : s.filterTerms.Pairwise termLE)
    (htr : ¬jsTrim term = "")
    (hokC : oC.ok = true) (hokU : oU.ok = true)
    (hC : ∀ row ∈ oC.filterRow, row.term = jsTrim term) :
    redoParserAction (undoParserAction
        (commitParserHistoryAction s
          (ParserHistoryAction.set_filter_term term false true false) oC).2 oU) oC =
      (commitParserHistoryAction s
        (ParserHistoryAction.set_filter_term term false true false) oC).2 := by
  have hrC : (oC.filterRow.getD
      { id := oC.fallbackId, term := jsTrim term, created_at := oC.fallbackCreatedAt }).term =
      jsTrim term := by
    cases h : oC.filterRow with
    | none => rfl
    | some row => simpa [h] using hC row (by simp [h])
  simp [commitParserHistoryAction, isParserHistoryActionNoop,
    applyParserHistoryAction, undoParserAction, redoParserAction,
    List.getLast?_concat, List.dropLast_concat, htr, hokC, hokU]
  exact sort_insert_refilter _ _ _
    (List.Pairwise.sublist (List.filter_sublist _) hsorted)
    (fun row hrow => (List.mem_filter.mp hrow).2)
    (by simp [hrC])

theorem c5_filter_disable_restore (s : ParserState) (term : String) (oC oU : StoreOutcome)
    (hsorted : s.filterTerms.Pairwise termLE)
    (htr : ¬jsTrim term = "")
    (hokC : oC.ok = true) (hokU : oU.ok = true)
    (hU : ∀ row ∈ oU.filterRow, row.term = jsTrim term) :
    redoParserAction (undoParserAction
        (commitParserHistoryAction s
          (ParserHistoryAction.set_filter_term term true false false) oC).2 oU) oC =
      (commitParserHistoryAction s
        (ParserHistoryAction.set_filter_term term true false false) oC).2 := by
  have hrU : (oU.filterRow.getD
      { id := oU.fallbackId, term := jsTrim term, created_at := oU.fallbackCreatedAt }).term =
      jsTrim term := by
    cases h : oU.filterRow with
    | none => rfl
    | some row => simpa [h] using hU row (by simp [h])
  simp [commitParserHistoryAction, isParserHistoryActionNoop,
    applyParserHistoryAction, undoParserAction, redoParserAction,
    List.getLast?_concat, List.dropLast_concat, htr, hokC, hokU]
  exact sort_remove_refilter _ _ _
    (List.Pairwise.sublist (List.filter_sublist _) hsorted)
    (fun row hrow => (List.mem_filter.mp hrow).2)
    (by simp [hrU])

theorem c5_line_rule_restore (s : ParserState) (lineText : String)
    (bc ac : Option LineClassification) (oC oU : StoreOutcome)
    (hne : isParserHistoryActionNoop
      (ParserHistoryAction.set_line_rule lineText bc ac false) = false)
    (hokC : oC.ok = true) (hokU : oU.ok = true)
    (hCe : ∀ row ∈ oC.lineRuleRow, row.line_text = jsTrim lineText)
    (hUe : ∀ row ∈ oU.lineRuleRow, row.line_text = jsTrim lineText) :
    redoParserAction (undoParserAction
        (commitParserHistoryAction s
          (ParserHistoryAction.set_line_rule lineText bc ac false) oC).2 oU) oC =
      (commitParserHistoryAction s
        (ParserHistoryAction.set_line_rule lineText bc ac false) oC).2 := by
  simp only [isParserHistoryActionNoop] at hne
  have hrC : ∀ c : LineClassification,
      (oC.lineRuleRow.getD
        { id := oC.fallbackId, line_text := jsTrim lineText, classification := c,
          created_at := oC.fallbackCreatedAt }).line_text = jsTrim lineText := by
    intro c
    cases h : oC.lineRuleRow with
    | none => rfl
    | some row => simpa [h] using hCe row (by simp [h])
  have hrU : ∀ c : LineClassification,
      (oU.lineRuleRow.getD
        { id := oU.fallbackId, line_text := jsTrim lineText, classification := c,
          created_at := oU.fallbackCreatedAt }).line_text = jsTrim lineText := by
    intro c
    cases h : oU.lineRuleRow with
    | none => rfl
    | some row => simpa [h] using hUe row (by simp [h])
  by_cases htr : jsTrim lineText = ""
  · simp [commitParserHistoryAction, isParserHistoryActionNoop, hne,
      applyParserHistoryAction, undoParserAction, redoParserAction,
      List.getLast?_concat, List.dropLast_concat, htr]
  · rcases ac with _ | c <;> rcases bc with _ | c'
    · simp at hne
    · simp [commitParserHistoryAction, isParserHistoryActionNoop, hne,
        applyParserHistoryAction, undoParserAction, redoParserAction,
        List.getLast?_concat, List.dropLast_concat, htr, hokC, hokU, hrC, hrU]
    · simp [commitParserHistoryAction, isParserHistoryActionNoop, hne,
        applyParserHistoryAction, undoParserAction, redoParserAction,
        List.getLast?_concat, List.dropLast_concat, htr, hokC, hokU, hrC, hrU]
    · simp [commitParserHistoryAction, isParserHistoryActionNoop, hne,
        applyParserHistoryAction, undoParserAction, redoParserAction,
        List.getLast?_concat, List.dropLast_concat, htr, hokC, hokU, hrC, hrU]

/-! ## Claim C5: history reversibility -/

/-- Claim C5 counterexample: a committed enable-filter-term action with
`reparse` set, against a store whose calls all succeed and return the same
row, is not restored bit-identically by undo-then-redo — the banner line of
the re-serialized body migrates into the first two lines during the undo
reparse and is dropped, so the body draft and parsed lines after redo
differ from the post-commit state. -/
theorem c5_counterexample :
    isParserHistoryActionNoop c5Action = false ∧
      (commitParserHistoryAction c5State c5Action c5OutcomeC).1 = true ∧
      ¬(redoParserAction (undoParserAction
          (commitParserHistoryAction c5State c5Action c5OutcomeC).2 c5OutcomeU) c5OutcomeC =
        (commitParserHistoryAction c5State c5Action c5OutcomeC).2) := by
  decide

/-- Claim C5 (amended): for a committed non-no-op action that does not
trigger a classifier reparse (a `ReplaceBodyDraft`, or a filter-term or
line-rule action with `reparse = false`), with the filter-term list sorted
by creation time (its load order), all persistence calls succeeding, the
store echoing the upserted key, and redo's call returning the same row as
the commit's, undo followed by redo restores the complete parser state —
filter terms, line rules, body draft, parsed lines, both stacks, error and
export text — bit-identically to the post-commit state. -/
theorem c5_amended :
    ∀ (s : ParserState) (action : ParserHistoryAction) (oC oU : StoreOutcome),
      s.filterTerms.Pairwise termLE →
      isParserHistoryActionNoop action = false →
      actionTriggersReparse action = false →
      oC.ok = true → oU.ok = true →
      StoreEchoesAction oC action → StoreEchoesAction oU action →
      (commitParserHistoryAction s action oC).1 = true →
      redoParserAction (undoParserAction
          (commitParserHistoryAction s action oC).2 oU) oC =
        (commitParserHistoryAction s action oC).2 := by
  intro s action oC oU hsorted hnoop hrep hokC hokU hechoC hechoU hcommit
  cases action with
  | replace_body_draft b a => exact c5_replace_restore s b a oC oU hnoop
  | set_filter_term term be ae rep =>
    have hrepf : rep = false := by simpa [actionTriggersReparse] using hrep
    subst hrepf
    have hne : ¬be = ae := by simpa [isParserHistoryActionNoop] using hnoop
    have htr : ¬jsTrim term = "" := by
      intro htr0
      have hfail : (commitParserHistoryAction s
          (ParserHistoryAction.set_filter_term term be ae false) oC).1 = false := by
        simp [commitParserHistoryAction, isParserHistoryActionNoop, hne,
          applyParserHistoryAction, htr0]
      simp [hfail] at hcommit
    have hCe : ∀ row ∈ oC.filterRow, row.term = jsTrim term := hechoC.1
    have hUe : ∀ row ∈ oU.filterRow, row.term = jsTrim term := hechoU.1
    cases be <;> cases ae
    · exact absurd rfl hne
    · exact c5_filter_enable_restore s term oC oU hsorted htr hokC hokU hCe
    · exact c5_filter_disable_restore s term oC oU hsorted htr hokC hokU hUe
    · exact absurd rfl hne
  | set_line_rule lineText bc ac rep =>
    have hrepf : rep = false := by simpa [actionTriggersReparse] using hrep
    subst hrepf
    exact c5_line_rule_restore s lineText bc ac oC oU hnoop hokC hokU hechoC.2 hechoU.2

/-- Claim C5 witness: committing a rule assignment without reparse from the
empty state, then undoing and redoing it with the store echoing the same
row, lands exactly on the post-commit state. -/
theorem c5_witness :
    redoParserAction (undoParserAction
        (commitParserHistoryAction emptyParserState c5WitnessAction c5WitnessOutcomeC).2
        c5WitnessOutcomeU) c5WitnessOutcomeC =
      (commitParserHistoryAction emptyParserState c5WitnessAction c5WitnessOutcomeC).2 :=
  c5_amended emptyParserState c5WitnessAction c5WitnessOutcomeC c5WitnessOutcomeU
    (by decide) (by decide) (by decide) (by decide) (by decide)
    ⟨by intro row h; simp [c5WitnessOutcomeC] at h,
     by
      intro row h
      simp [c5WitnessOutcomeC] at h
      subst h
      decide⟩
    ⟨by intro row h; simp [c5WitnessOutcomeU] at h,
     by intro row h; simp [c5WitnessOutcomeU] at h⟩
    (by decide)

/-! ## Decimal representations and span keys -/

theorem digitChar_ne_dash (n : Nat) (h : n < 10) : Nat.digitChar n ≠ '-' := by
  interval_cases n <;> decide

theorem digitChar_val_eq (n : Nat) (h : n < 10) : (Nat.digitChar n).toNat - 48 = n := by
  interval_cases n <;> decide

theorem toDigitsCore_ne_dash :
    ∀ (fuel n : Nat) (acc : List Char), (∀ c ∈ acc, c ≠ '-') →
      ∀ c ∈ Nat.toDigitsCore 10 fuel n acc, c ≠ '-' := by
  intro fuel
  induction fuel with
  | zero =>
    intro n acc hacc c hc
    exact hacc c (by simpa [Nat.toDigitsCore] using hc)
  | succ f ih =>
    intro n acc hacc c hc
    rw [Nat.toDigitsCore] at hc
    have hd : Nat.digitChar (n % 10) ≠ '-' :=
      digitChar_ne_dash _ (Nat.mod_lt _ (by norm_num))
    by_cases h0 : n / 10 = 0
    · simp only [h0, if_pos] at hc
      rcases List.mem_cons.mp hc with rfl | hc
      · exact hd
      · exact hacc c hc
    · simp only [h0, if_neg, ite_false] at hc
      refine ih (n / 10) (Nat.digitChar (n % 10) :: acc) ?_ c hc
      intro c' hc'
      rcases List.mem_cons.mp hc' with rfl | hc'
      · exact hd
      · exact hacc c' hc'

theorem natRepr_ne_dash (n : Nat) : ∀ c ∈ (Nat.repr n).data, c ≠ '-' := by
  intro c hc
  exact toDigitsCore_ne_dash (n + 1) n [] (by simp) c hc

theorem toDigitsCore_append :
    ∀ (fuel n : Nat) (acc : List Char),
      Nat.toDigitsCore 10 fuel n acc = Nat.toDigitsCore 10 fuel n [] ++ acc := by
  intro fuel
  induction fuel with
  | zero => intro n acc; simp [Nat.toDigitsCore]
  | succ f ih =>
    intro n acc
    rw [Nat.toDigitsCore, Nat.toDigitsCore]
    by_cases h0 : n / 10 = 0
    · simp [h0]
    · simp only [h0, if_neg, ite_false]
      rw [ih (n / 10) (Nat.digitChar (n % 10) :: acc),
        ih (n / 10) [Nat.digitChar (n % 10)], List.append_assoc]
      rfl

theorem digitsVal_toDigitsCore :
    ∀ (fuel n : Nat), n < fuel → digitsVal (Nat.toDigitsCore 10 fuel n []) = n := by
  intro fuel
  induction fuel with
  | zero => intro n h; omega
  | succ f ih =>
    intro n h
    rw [Nat.toDigitsCore]
    by_cases h0 : n / 10 = 0
    · have hn : n < 10 := by omega
      simp only [h0, if_pos]
      have : n % 10 = n := Nat.mod_eq_of_lt hn
      simp [digitsVal, this, digitChar_val_eq n hn]
    · simp only [h0, if_neg, ite_false]
      rw [toDigitsCore_append f (n / 10) [Nat.digitChar (n % 10)]]
      have hdivlt : n / 10 < f := by
        have h1 : n / 10 < n := Nat.div_lt_self (by omega) (by norm_num)
        omega
      have hmod : (Nat.digitChar (n % 10)).toNat - 48 = n % 10 :=
        digitChar_val_eq _ (Nat.mod_lt _ (by norm_num))
      have hval : digitsVal (Nat.toDigitsCore 10 f (n / 10) []) = n / 10 :=
        ih (n / 10) hdivlt
      simp only [digitsVal, List.foldl_append, List.foldl_cons, List.foldl_nil] at hval ⊢
      rw [hval, hmod]
      omega

theorem natRepr_inj (m n : Nat) (h : Nat.repr m = Nat.repr n) : m = n := by
  have hd : (Nat.repr m).data = (Nat.repr n).data := by rw [h]
  have hm : digitsVal (Nat.toDigitsCore 10 (m + 1) m []) = m :=
    digitsVal_toDigitsCore (m + 1) m (by omega)
  have hn : digitsVal (Nat.toDigitsCore 10 (n + 1) n []) = n :=
    digitsVal_toDigitsCore (n + 1) n (by omega)
  have : Nat.toDigitsCore 10 (m + 1) m [] = Nat.toDigitsCore 10 (n + 1) n [] := hd
  rw [← hm, ← hn, this]

theorem string_data_inj {a b : String} (h : a.data = b.data) : a = b := by
  cases a
  cases b
  exact congrArg String.mk h

theorem append_dash_inj :
    ∀ (xs : List Char) (ys xs' ys' : List Char), ('-' ∉ xs) → ('-' ∉ xs') →
      xs ++ '-' :: ys = xs' ++ '-' :: ys' → xs = xs' ∧ ys = ys' := by
  intro xs
  induction xs with
  | nil =>
    intro ys xs' ys' _ hx2 h
    cases xs' with
    | nil => simpa using h
    | cons b t' =>
      exfalso
      have hb : b = '-' := by
        have := congrArg (fun l => l.head?) h
        simpa using this.symm
      exact hx2 (hb ▸ List.mem_cons_self b t')
  | cons a t ih =>
    intro ys xs' ys' hx1 hx2 h
    cases xs' with
    | nil =>
      exfalso
      have ha : a = '-' := by
        have := congrArg (fun l => l.head?) h
        simpa using this
      exact hx1 (ha ▸ List.mem_cons_self a t)
    | cons b t' =>
      simp only [List.cons_append, List.cons.injEq] at h
      obtain ⟨hab, ht⟩ := h
      have := ih ys t' ys' (fun hm => hx1 (List.mem_cons_of_mem a hm))
        (fun hm => hx2 (hab ▸ List.mem_cons_of_mem b hm)) ht
      exact ⟨by rw [hab, this.1], this.2⟩

theorem spanKey_inj (s e s' e' : Nat) (h : spanKey s e = spanKey s' e') :
    s = s' ∧ e = e' := by
  have hd : (Nat.repr s).data ++ '-' :: (Nat.repr e).data =
      (Nat.repr s').data ++ '-' :: (Nat.repr e').data := by
    have := congrArg String.data h
    simpa [spanKey, String.data_append] using this
  have hsplit := append_dash_inj (Nat.repr s).data (Nat.repr e).data
    (Nat.repr s').data (Nat.repr e').data
    (fun hm => natRepr_ne_dash s '-' hm rfl)
    (fun hm => natRepr_ne_dash s' '-' hm rfl) hd
  exact ⟨natRepr_inj s s' (string_data_inj hsplit.1),
    natRepr_inj e e' (string_data_inj hsplit.2)⟩

/-! ## The annotator sort order -/

theorem annLE_total : ∀ a b : BodyTagAnnotationRow, annLE a b ∨ annLE b a := by
  intro a b
  unfold annLE
  rcases Nat.lt_trichotomy a.start_offset b.start_offset with h | h | h
  · exact Or.inl (Or.inl h)
  · rcases Nat.lt_trichotomy a.end_offset b.end_offset with h2 | h2 | h2
    · exact Or.inl (Or.inr ⟨h, Or.inl h2⟩)
    · rcases charListLe_total a.created_at.data b.created_at.data with h3 | h3
      · exact Or.inl (Or.inr ⟨h, Or.inr ⟨h2, h3⟩⟩)
      · exact Or.inr (Or.inr ⟨h.symm, Or.inr ⟨h2.symm, h3⟩⟩)
    · exact Or.inr (Or.inr ⟨h.symm, Or.inl h2⟩)
  · exact Or.inr (Or.inl h)

theorem annLE_trans : ∀ a b c : BodyTagAnnotationRow,
    annLE a b → annLE b c → annLE a c := by
  intro a b c h1 h2
  unfold annLE at h1 h2 ⊢
  rcases h1 with h1 | ⟨h1s, h1e⟩
  · rcases h2 with h2 | ⟨h2s, _⟩
    · exact Or.inl (Nat.lt_trans h1 h2)
    · exact Or.inl (h2s ▸ h1)
  · rcases h2 with h2 | ⟨h2s, h2e⟩
    · exact Or.inl (h1s ▸ h2)
    · refine Or.inr ⟨h1s.trans h2s, ?_⟩
      rcases h1e with h1e | ⟨h1e, h1c⟩
      · rcases h2e with h2e | ⟨h2e, _⟩
        · exact Or.inl (Nat.lt_trans h1e h2e)
        · exact Or.inl (h2e ▸ h1e)
      · rcases h2e with h2e | ⟨h2e, h2c⟩
        · exact Or.inl (h1e ▸ h2e)
        · exact Or.inr ⟨h1e.trans h2e, charListLe_trans _ _ _ h1c h2c⟩

/-- The span order implied by the row sort order (dropping the creation
tie-break). -/
theorem annLE_spanLE {a b : BodyTagAnnotationRow} (h : annLE a b) :
    a.start_offset < b.start_offset ∨
      (a.start_offset = b.start_offset ∧ a.end_offset ≤ b.end_offset) := by
  unfold annLE at h
  rcases h with h | ⟨hs, he⟩
  · exact Or.inl h
  · rcases he with he | ⟨he, _⟩
    · exact Or.inr ⟨hs, Nat.le_of_lt he⟩
    · exact Or.inr ⟨hs, he.le⟩

theorem normalizedBodyTags_sorted (draft : String) (rows : List BodyTagAnnotationRow) :
    (normalizedBodyTags draft rows).Pairwise annLE := by
  haveI : IsTotal BodyTagAnnotationRow annLE := ⟨annLE_total⟩
  haveI : IsTrans BodyTagAnnotationRow annLE := ⟨annLE_trans⟩
  exact List.sorted_insertionSort annLE _

theorem normalizedBodyTags_mem {draft : String} {rows : List BodyTagAnnotationRow}
    {r : BodyTagAnnotationRow} (h : r ∈ normalizedBodyTags draft rows) :
    r ∈ rows ∧ r.start_offset < r.end_offset ∧ r.end_offset ≤ draft.length := by
  have hperm := List.perm_insertionSort annLE (rows.filter fun row =>
    decide (0 ≤ row.start_offset ∧ row.start_offset < row.end_offset ∧
      row.end_offset ≤ draft.length))
  have hmem : r ∈ rows.filter fun row =>
      decide (0 ≤ row.start_offset ∧ row.start_offset < row.end_offset ∧
        row.end_offset ≤ draft.length) := hperm.subset h
  have := List.mem_filter.mp hmem
  refine ⟨this.1, ?_, ?_⟩
  · have := of_decide_eq_true this.2
    exact this.2.1
  · have := of_decide_eq_true this.2
    exact this.2.2

/-! ## The grouping loop of the annotator -/

theorem spanLE_compose {a1 a2 b1 b2 c1 c2 : Nat}
    (h1 : a1 < b1 ∨ (a1 = b1 ∧ a2 ≤ b2)) (h2 : b1 < c1 ∨ (b1 = c1 ∧ b2 ≤ c2)) :
    a1 < c1 ∨ (a1 = c1 ∧ a2 ≤ c2) := by
  omega

theorem appendRowToGroup_mem (key : String) (r : BodyTagAnnotationRow) :
    ∀ (acc : List BodyTagRangeGroup) (g : BodyTagRangeGroup),
      g ∈ appendRowToGroup key r acc →
      ∃ g0 ∈ acc, g.key = g0.key ∧ g.start = g0.start ∧ g.stop = g0.stop ∧
        g.text = g0.text ∧
        (g.annotations = g0.annotations ∨
          (g.annotations = g0.annotations ++ [r] ∧ g0.key = key)) := by
  intro acc
  induction acc with
  | nil => intro g hg; simp [appendRowToGroup] at hg
  | cons h t ih =>
    intro g hg
    by_cases hk : h.key = key
    · rw [appendRowToGroup, if_pos hk] at hg
      rcases List.mem_cons.mp hg with rfl | hg
      · exact ⟨h, by simp, rfl, rfl, rfl, rfl, Or.inr ⟨rfl, hk⟩⟩
      · exact ⟨g, List.mem_cons_of_mem h hg, rfl, rfl, rfl, rfl, Or.inl rfl⟩
    · rw [appendRowToGroup, if_neg hk] at hg
      rcases List.mem_cons.mp hg with rfl | hg
      · exact ⟨g, by simp, rfl, rfl, rfl, rfl, Or.inl rfl⟩
      · obtain ⟨g0, hg0, hfacts⟩ := ih g hg
        exact ⟨g0, List.mem_cons_of_mem h hg0, hfacts⟩

theorem appendRowToGroup_pairwise (key : String) (r : BodyTagAnnotationRow) :
    ∀ acc : List BodyTagRangeGroup, acc.Pairwise groupSpanLt →
      (appendRowToGroup key r acc).Pairwise groupSpanLt := by
  intro acc
  induction acc with
  | nil => intro _; simp [appendRowToGroup]
  | cons h t ih =>
    intro hp
    obtain ⟨hht, htp⟩ := List.pairwise_cons.mp hp
    by_cases hk : h.key = key
    · rw [appendRowToGroup, if_pos hk]
      refine List.pairwise_cons.mpr ⟨?_, htp⟩
      intro g hg
      have := hht g hg
      simpa [groupSpanLt] using this
    · rw [appendRowToGroup, if_neg hk]
      refine List.pairwise_cons.mpr ⟨?_, ih htp⟩
      intro g hg
      obtain ⟨g0, hg0, _, hstart, hstop, _, _⟩ := appendRowToGroup_mem key r t g hg
      have := hht g0 hg0
      simp only [groupSpanLt] at this ⊢
      omega

theorem appendRowToGroup_mono (key : String) (r r0 : BodyTagAnnotationRow) :
    ∀ acc : List BodyTagRangeGroup, (∃ g ∈ acc, r0 ∈ g.annotations) →
      ∃ g ∈ appendRowToGroup key r acc, r0 ∈ g.annotations := by
  intro acc
  induction acc with
  | nil => rintro ⟨g, hg, _⟩; simp at hg
  | cons h t ih =>
    rintro ⟨g, hg, hr0⟩
    by_cases hk : h.key = key
    · rw [appendRowToGroup, if_pos hk]
      rcases List.mem_cons.mp hg with rfl | hg
      · exact ⟨{ g with annotations := g.annotations ++ [r] }, by simp,
          by simp [hr0]⟩
      · exact ⟨g, List.mem_cons_of_mem _ hg, hr0⟩
    · rw [appendRowToGroup, if_neg hk]
      rcases List.mem_cons.mp hg with rfl | hg
      · exact ⟨g, by simp, hr0⟩
      · obtain ⟨g', hg', hr0'⟩ := ih ⟨g, hg, hr0⟩
        exact ⟨g', List.mem_cons_of_mem _ hg', hr0'⟩

theorem appendRowToGroup_lands (key : String) (r : BodyTagAnnotationRow) :
    ∀ acc : List BodyTagRangeGroup, (∃ g ∈ acc, g.key = key) →
      ∃ g ∈ appendRowToGroup key r acc, r ∈ g.annotations := by
  intro acc
  induction acc with
  | nil => rintro ⟨g, hg, _⟩; simp at hg
  | cons h t ih =>
    rintro ⟨g, hg, hkey⟩
    by_cases hk : h.key = key
    · rw [appendRowToGroup, if_pos hk]
      exact ⟨{ h with annotations := h.annotations ++ [r] }, by simp, by simp⟩
    · rw [appendRowToGroup, if_neg hk]
      rcases List.mem_cons.mp hg with rfl | hg
      · exact absurd hkey hk
      · obtain ⟨g', hg', hr⟩ := ih ⟨g, hg, hkey⟩
        exact ⟨g', List.mem_cons_of_mem _ hg', hr⟩

theorem bodyTagGroups_fold (draft : String) (allRows : List BodyTagAnnotationRow) :
    ∀ (todo : List BodyTagAnnotationRow) (acc : List BodyTagRangeGroup),
      todo.Pairwise annLE →
      (∀ r ∈ todo, r ∈ allRows ∧ r.start_offset < r.end_offset ∧
        r.end_offset ≤ draft.length) →
      (∀ g ∈ acc, GroupInv draft allRows g) →
      acc.Pairwise groupSpanLt →
      (∀ g ∈ acc, ∀ r ∈ todo, g.start < r.start_offset ∨
        (g.start = r.start_offset ∧ g.stop ≤ r.end_offset)) →
      (∀ g ∈ todo.foldl (pushRowToGroups draft) acc, GroupInv draft allRows g) ∧
        (todo.foldl (pushRowToGroups draft) acc).Pairwise groupSpanLt ∧
        ∀ r0, ((∃ g ∈ acc, r0 ∈ g.annotations) ∨ r0 ∈ todo) →
          ∃ g ∈ todo.foldl (pushRowToGroups draft) acc, r0 ∈ g.annotations := by
  intro todo
  induction todo with
  | nil =>
    intro acc _ _ hinv hpair _
    refine ⟨hinv, hpair, ?_⟩
    rintro r0 (h | h)
    · exact h
    · simp at h
  | cons r rest ih =>
    intro acc hsorted hvalid hinv hpair hd
    obtain ⟨hrrest, hrestsorted⟩ := List.pairwise_cons.mp hsorted
    obtain ⟨hrall, hrlt, hrle⟩ := hvalid r (by simp)
    have hvalidrest : ∀ r' ∈ rest, r' ∈ allRows ∧ r'.start_offset < r'.end_offset ∧
        r'.end_offset ≤ draft.length := fun r' hr' => hvalid r' (List.mem_cons_of_mem r hr')
    have hfold : (r :: rest).foldl (pushRowToGroups draft) acc =
        rest.foldl (pushRowToGroups draft) (pushRowToGroups draft acc r) := rfl
    rw [hfold]
    set key := spanKey r.start_offset r.end_offset with hkeydef
    by_cases hfound : (acc.find? fun g => g.key == key).isSome = true
    · have hpush : pushRowToGroups draft acc r = appendRowToGroup key r acc := by
        rw [pushRowToGroups, if_pos hfound]
      rw [hpush]
      have hinv' : ∀ g ∈ appendRowToGroup key r acc, GroupInv draft allRows g := by
        intro g hg
        obtain ⟨g0, hg0, hkey0, hstart0, hstop0, htext0, hanns⟩ :=
          appendRowToGroup_mem key r acc g hg
        obtain ⟨gk, glt, gle, gtx, gne, gmem⟩ := hinv g0 hg0
        rcases hanns with hsame | ⟨happ, hg0key⟩
        · exact ⟨by rw [hkey0, hstart0, hstop0]; exact gk,
            by rw [hstart0, hstop0]; exact glt, by rw [hstop0]; exact gle,
            by rw [htext0, hstart0, hstop0]; exact gtx,
            by rw [hsame]; exact gne,
            by rw [hsame, hstart0, hstop0]; exact gmem⟩
        · have hspan : r.start_offset = g0.start ∧ r.end_offset = g0.stop := by
            have : spanKey g0.start g0.stop = spanKey r.start_offset r.end_offset := by
              rw [← gk, hg0key, hkeydef]
            have := spanKey_inj _ _ _ _ this
            exact ⟨this.1.symm, this.2.symm⟩
          refine ⟨by rw [hkey0, hstart0, hstop0]; exact gk,
            by rw [hstart0, hstop0]; exact glt, by rw [hstop0]; exact gle,
            by rw [htext0, hstart0, hstop0]; exact gtx,
            by rw [happ]; simp,
            ?_⟩
          intro r' hr'
          rw [happ] at hr'
          rcases List.mem_append.mp hr' with hr' | hr'
          · have := gmem r' hr'
            exact ⟨this.1, by rw [hstart0]; exact this.2.1, by rw [hstop0]; exact this.2.2⟩
          · have : r' = r := by simpa using hr'
            subst this
            exact ⟨hrall, by rw [hstart0]; exact hspan.1, by rw [hstop0]; exact hspan.2⟩
      have hpair' : (appendRowToGroup key r acc).Pairwise groupSpanLt :=
        appendRowToGroup_pairwise key r acc hpair
      have hd' : ∀ g ∈ appendRowToGroup key r acc, ∀ r' ∈ rest,
          g.start < r'.start_offset ∨
            (g.start = r'.start_offset ∧ g.stop ≤ r'.end_offset) := by
        intro g hg r' hr'
        obtain ⟨g0, hg0, _, hstart0, hstop0, _, _⟩ :=
          appendRowToGroup_mem key r acc g hg
        have h1 := hd g0 hg0 r (by simp)
        have h2 := annLE_spanLE (hrrest r' hr')
        rw [hstart0, hstop0]
        exact spanLE_compose h1 h2
      obtain ⟨c1, c2, c3⟩ := ih (appendRowToGroup key r acc) hrestsorted hvalidrest
        hinv' hpair' hd'
      refine ⟨c1, c2, ?_⟩
      rintro r0 (h | h)
      · exact c3 r0 (Or.inl (appendRowToGroup_mono key r r0 acc h))
      · rcases List.mem_cons.mp h with rfl | h
        · refine c3 r0 (Or.inl ?_)
          refine appendRowToGroup_lands key r0 acc ?_
          obtain ⟨g, hg, hgk⟩ := List.find?_isSome.mp hfound
          exact ⟨g, hg, by simpa using hgk⟩
        · exact c3 r0 (Or.inr h)
    · set gNew : BodyTagRangeGroup :=
        { key := key, start := r.start_offset, stop := r.end_offset,
          text := jsSlice draft r.start_offset r.end_offset,
          annotations := [r] } with hgnew
      have hnewg : pushRowToGroups draft acc r = acc ++ [gNew] := by
        rw [pushRowToGroups, if_neg hfound]
      rw [hnewg]
      have hkeys : ∀ g ∈ acc, g.key ≠ key := by
        intro g hg
        have := List.find?_eq_none.mp (Option.not_isSome_iff_eq_none.mp hfound) g hg
        simpa using this
      have hinv' : ∀ g ∈ acc ++ [gNew], GroupInv draft allRows g := by
        intro g hg
        rcases List.mem_append.mp hg with hg | hg
        · exact hinv g hg
        · have hgeq : g = gNew := by simpa using hg
          subst hgeq
          rw [hgnew]
          refine ⟨hkeydef, hrlt, hrle, rfl, by simp, ?_⟩
          intro r' hr'
          have : r' = r := by simpa using hr'
          subst this
          exact ⟨hrall, rfl, rfl⟩
      have hpair' : (acc ++ [gNew]).Pairwise groupSpanLt := by
        refine List.pairwise_append.mpr ⟨hpair, List.pairwise_singleton _ _, ?_⟩
        intro g hg g' hg'
        have hgeq : g' = gNew := by simpa using hg'
        subst hgeq
        have hle := hd g hg r (by simp)
        have hne : ¬(g.start = r.start_offset ∧ g.stop = r.end_offset) := by
          intro hsp
          refine hkeys g hg ?_
          obtain ⟨gk, _, _, _, _, _⟩ := hinv g hg
          rw [gk, hsp.1, hsp.2, hkeydef]
        rw [hgnew]
        simp only [groupSpanLt]
        omega
      have hd' : ∀ g ∈ acc ++ [gNew], ∀ r' ∈ rest,
          g.start < r'.start_offset ∨
            (g.start = r'.start_offset ∧ g.stop ≤ r'.end_offset) := by
        intro g hg r' hr'
        have h2 := annLE_spanLE (hrrest r' hr')
        rcases List.mem_append.mp hg with hg | hg
        · exact spanLE_compose (hd g hg r (by simp)) h2
        · have hgeq : g = gNew := by simpa using hg
          subst hgeq
          have hsp : gNew.start = r.start_offset ∧ gNew.stop = r.end_offset := by
            rw [hgnew]
            exact ⟨rfl, rfl⟩
          rw [hsp.1, hsp.2]
          exact h2
      obtain ⟨c1, c2, c3⟩ := ih (acc ++ [gNew]) hrestsorted hvalidrest hinv' hpair' hd'
      refine ⟨c1, c2, ?_⟩
      rintro r0 (h | h)
      · obtain ⟨g, hg, hr0⟩ := h
        exact c3 r0 (Or.inl ⟨g, List.mem_append.mpr (Or.inl hg), hr0⟩)
      · rcases List.mem_cons.mp h with h | h
        · exact c3 r0 (Or.inl ⟨gNew, List.mem_append.mpr (Or.inr (by simp)),
            by rw [hgnew]; simp [h]⟩)
        · exact c3 r0 (Or.inr h)

/-! ## The cursor loop of the annotator preview -/

theorem drop_take_drop (l : List Char) (a b : Nat) (h : a ≤ b) :
    (l.drop a).take (b - a) ++ l.drop b = l.drop a := by
  have h2 : (l.drop a).drop (b - a) = l.drop b := by
    rw [List.drop_drop]
    congr 1
    omega
  conv_rhs => rw [← List.take_append_drop (b - a) (l.drop a)]
  rw [h2]

theorem jsSlice_append_from (s : String) (a b : Nat) (h : a ≤ b) :
    jsSlice s a b ++ jsSliceFrom s b = jsSliceFrom s a := by
  have hl : (s.data.drop a).take (b - a) ++ s.data.drop b = s.data.drop a :=
    drop_take_drop s.data a b h
  show String.mk ((s.data.drop a).take (b - a) ++ s.data.drop b) =
    String.mk (s.data.drop a)
  exact congrArg String.mk hl

theorem segLoop_text (draft : String) :
    ∀ (gs : List BodyTagRangeGroup) (cursor : Nat),
      List.Chain' (fun g1 g2 => g1.stop ≤ g2.start) gs →
      (∀ g ∈ gs, g.start < g.stop ∧ g.stop ≤ draft.length) →
      (∀ g ∈ gs.head?, cursor ≤ g.start) →
      segmentsText (segLoop draft cursor gs) = jsSliceFrom draft cursor := by
  intro gs
  induction gs with
  | nil =>
    intro cursor _ _ _
    rw [segLoop]
    by_cases h : cursor < draft.length
    · rw [if_pos h]
      show jsSliceFrom draft cursor ++ "" = jsSliceFrom draft cursor
      show String.mk (draft.data.drop cursor ++ []) = String.mk (draft.data.drop cursor)
      exact congrArg String.mk (List.append_nil _)
    · rw [if_neg h]
      show ("" : String) = jsSliceFrom draft cursor
      have hlen : draft.data.length ≤ cursor := by
        have : draft.length = draft.data.length := rfl
        omega
      rw [jsSliceFrom, List.drop_eq_nil_of_le hlen]
  | cons g rest ih =>
    intro cursor hchain hval hhead
    have hcg : cursor ≤ g.start := hhead g (by simp)
    obtain ⟨hlt, hle⟩ := hval g (by simp)
    rw [segLoop, if_neg (by omega : ¬ g.start < cursor)]
    have hrest_head : ∀ g2 ∈ rest.head?, g.stop ≤ g2.start := by
      intro g2 hg2
      cases rest with
      | nil => simp at hg2
      | cons g2h r' =>
        have : g2h = g2 := by simpa using hg2
        subst this
        exact (List.chain'_cons.mp hchain).1
    have hih := ih g.stop hchain.tail
      (fun g' hg' => hval g' (List.mem_cons_of_mem g hg')) hrest_head
    by_cases hplain : cursor < g.start
    · rw [if_pos hplain]
      simp only [List.singleton_append, segmentsText, segmentText]
      rw [hih, jsSlice_append_from draft g.start g.stop (Nat.le_of_lt hlt),
        jsSlice_append_from draft cursor g.start (Nat.le_of_lt hplain)]
    · rw [if_neg hplain]
      have hcur : cursor = g.start := by omega
      simp only [List.nil_append, segmentsText, segmentText]
      rw [hih, jsSlice_append_from draft g.start g.stop (Nat.le_of_lt hlt), hcur]

theorem segLoop_chain (draft : String) :
    ∀ (gs : List BodyTagRangeGroup) (cursor : Nat),
      List.Chain' (fun s1 s2 => segmentIsPlain s1 = false ∨ segmentIsPlain s2 = false)
        (segLoop draft cursor gs) := by
  intro gs
  induction gs with
  | nil =>
    intro cursor
    rw [segLoop]
    by_cases h : cursor < draft.length
    · rw [if_pos h]
      exact List.chain'_singleton _
    · rw [if_neg h]
      exact List.chain'_nil
  | cons g rest ih =>
    intro cursor
    rw [segLoop]
    by_cases hskip : g.start < cursor
    · rw [if_pos hskip]
      exact ih cursor
    · rw [if_neg hskip]
      by_cases hplain : cursor < g.start
      · rw [if_pos hplain]
        simp only [List.singleton_append]
        refine List.chain'_cons.mpr ⟨Or.inr rfl, ?_⟩
        exact (ih g.stop).cons' (fun b _ => Or.inl rfl)
      · rw [if_neg hplain]
        simp only [List.nil_append]
        exact (ih g.stop).cons' (fun b _ => Or.inl rfl)

theorem segLoop_groups (draft : String) :
    ∀ (gs : List BodyTagRangeGroup) (cursor : Nat),
      List.Chain' (fun g1 g2 => g1.stop ≤ g2.start) gs →
      (∀ g ∈ gs, g.start < g.stop) →
      (∀ g ∈ gs.head?, cursor ≤ g.start) →
      (segLoop draft cursor gs).filterMap segmentGroup = gs := by
  intro gs
  induction gs with
  | nil =>
    intro cursor _ _ _
    rw [segLoop]
    by_cases h : cursor < draft.length
    · rw [if_pos h]
      rfl
    · rw [if_neg h]
      rfl
  | cons g rest ih =>
    intro cursor hchain hval hhead
    have hcg : cursor ≤ g.start := hhead g (by simp)
    have hlt := hval g (by simp)
    rw [segLoop, if_neg (by omega : ¬ g.start < cursor)]
    have hrest_head : ∀ g2 ∈ rest.head?, g.stop ≤ g2.start := by
      intro g2 hg2
      cases rest with
      | nil => simp at hg2
      | cons g2h r' =>
        have : g2h = g2 := by simpa using hg2
        subst this
        exact (List.chain'_cons.mp hchain).1
    have hih := ih g.stop hchain.tail
      (fun g' hg' => hval g' (List.mem_cons_of_mem g hg')) hrest_head
    by_cases hplain : cursor < g.start
    · rw [if_pos hplain]
      exact congrArg (fun l => g :: l) hih
    · rw [if_neg hplain]
      exact congrArg (fun l => g :: l) hih

theorem bodyTagGroups_spec (draft : String) (rows : List BodyTagAnnotationRow) :
    (∀ g ∈ bodyTagGroups draft rows, GroupInv draft rows g) ∧
      (bodyTagGroups draft rows).Pairwise groupSpanLt ∧
      ∀ r ∈ rows, r.start_offset < r.end_offset → r.end_offset ≤ draft.length →
        ∃ g ∈ bodyTagGroups draft rows, r ∈ g.annotations := by
  rw [bodyTagGroups]
  by_cases hempty : draft = "" ∨ rows = []
  · rw [if_pos hempty]
    refine ⟨by simp, List.Pairwise.nil, ?_⟩
    intro r hr hlt hle
    rcases hempty with h | h
    · subst h
      have hz : ("" : String).length = 0 := rfl
      omega
    · subst h
      simp at hr
  · rw [if_neg hempty]
    obtain ⟨c1, c2, c3⟩ := bodyTagGroups_fold draft rows (normalizedBodyTags draft rows)
      [] (normalizedBodyTags_sorted draft rows)
      (fun r hr => normalizedBodyTags_mem hr)
      (by simp) List.Pairwise.nil (by simp)
    refine ⟨c1, c2, ?_⟩
    intro r hr hlt hle
    refine c3 r (Or.inr ?_)
    rw [normalizedBodyTags]
    have hperm := List.perm_insertionSort annLE (rows.filter fun row =>
      decide (0 ≤ row.start_offset ∧ row.start_offset < row.end_offset ∧
        row.end_offset ≤ draft.length))
    rw [hperm.mem_iff]
    refine List.mem_filter.mpr ⟨hr, ?_⟩
    simp [hlt, hle]

theorem groups_disjoint (draft : String) (rows : List BodyTagAnnotationRow)
    (hNO : ∀ a ∈ rows, ∀ b ∈ rows,
      a.start_offset < a.end_offset → a.end_offset ≤ draft.length →
      b.start_offset < b.end_offset → b.end_offset ≤ draft.length →
      NonOverlapOrIdentical a b) :
    List.Pairwise (fun g1 g2 => g1.stop ≤ g2.start) (bodyTagGroups draft rows) := by
  obtain ⟨hinv, hpair, _⟩ := bodyTagGroups_spec draft rows
  refine hpair.imp_of_mem ?_
  intro g1 g2 hg1 hg2 hlt
  obtain ⟨_, glt1, gle1, _, gne1, gmem1⟩ := hinv g1 hg1
  obtain ⟨_, glt2, gle2, _, gne2, gmem2⟩ := hinv g2 hg2
  obtain ⟨r1, hr1⟩ := List.exists_mem_of_ne_nil _ gne1
  obtain ⟨r2, hr2⟩ := List.exists_mem_of_ne_nil _ gne2
  obtain ⟨hr1rows, hr1s, hr1e⟩ := gmem1 r1 hr1
  obtain ⟨hr2rows, hr2s, hr2e⟩ := gmem2 r2 hr2
  have hno := hNO r1 hr1rows r2 hr2rows (by omega) (by omega) (by omega) (by omega)
  rw [NonOverlapOrIdentical] at hno
  rw [groupSpanLt] at hlt
  by_cases hov : r1.start_offset < r2.end_offset ∧ r2.start_offset < r1.end_offset
  · have hid := hno hov
    omega
  · omega

/-! ## Claim C7: render segmentation -/

/-- Claim C7 counterexample: for the body "abcd" and the two valid,
non-overlapping, non-identical annotations with spans 0..2 and 2..4, the
preview emits two adjacent tagged segments with no plain segment between
them, so the emitted sequence does NOT strictly alternate between plain
and tagged segments as the specification claims. -/
theorem c7_counterexample :
    (∀ a ∈ [c7Row1, c7Row2], ∀ b ∈ [c7Row1, c7Row2], NonOverlapOrIdentical a b) ∧
      (∀ r ∈ [c7Row1, c7Row2], r.start_offset < r.end_offset ∧
        r.end_offset ≤ ("abcd" : String).length) ∧
      ¬ List.Chain' (fun s1 s2 => segmentIsPlain s1 ≠ segmentIsPlain s2)
        (bodyTagPreviewSegments "abcd" [c7Row1, c7Row2]) := by
  refine ⟨by decide, by decide, ?_⟩
  intro h
  have hmap : (bodyTagPreviewSegments "abcd" [c7Row1, c7Row2]).map segmentIsPlain =
      [false, false] := by decide
  have h2 := (List.chain'_map segmentIsPlain).mpr h
  rw [hmap] at h2
  exact (List.chain'_cons.mp h2).1 rfl

/-- Claim C7, amended: for every body string and every annotation list whose
valid annotations (start < end ≤ length) are pairwise non-overlapping except
for identical spans, the preview's concatenated segment texts equal the
whole body, no two plain segments are adjacent (tagged segments CAN be
adjacent, so the sequence need not strictly alternate), the tagged segments
list the groups exactly in order, the groups are strictly ordered by start
then end, each group carries a consistent key/span/text and only annotations
from the input sitting exactly on its span, every valid annotation lands in
some group, and every stale annotation (end beyond the body) lands in no
group while remaining untouched in the input list. -/
theorem c7_amended (draft : String) (rows : List BodyTagAnnotationRow)
    (hNO : ∀ a ∈ rows, ∀ b ∈ rows,
      a.start_offset < a.end_offset → a.end_offset ≤ draft.length →
      b.start_offset < b.end_offset → b.end_offset ≤ draft.length →
      NonOverlapOrIdentical a b) :
    segmentsText (bodyTagPreviewSegments draft rows) = draft ∧
      List.Chain' (fun s1 s2 => segmentIsPlain s1 = false ∨ segmentIsPlain s2 = false)
        (bodyTagPreviewSegments draft rows) ∧
      (bodyTagPreviewSegments draft rows).filterMap segmentGroup =
        bodyTagGroups draft rows ∧
      (bodyTagGroups draft rows).Pairwise groupSpanLt ∧
      (∀ g ∈ bodyTagGroups draft rows, GroupInv draft rows g) ∧
      (∀ r ∈ rows, r.start_offset < r.end_offset → r.end_offset ≤ draft.length →
        ∃ g ∈ bodyTagGroups draft rows, r ∈ g.annotations) ∧
      ∀ r ∈ rows, draft.length < r.end_offset →
        ∀ g ∈ bodyTagGroups draft rows, r ∉ g.annotations := by
  obtain ⟨hinv, hpair, hcover⟩ := bodyTagGroups_spec draft rows
  have hchain := (groups_disjoint draft rows hNO).chain'
  refine ⟨?_, ?_, ?_, hpair, hinv, hcover, ?_⟩
  · simp only [bodyTagPreviewSegments]
    by_cases hd : draft = ""
    · rw [if_pos hd, hd]
      rfl
    · rw [if_neg hd]
      by_cases hg : bodyTagGroups draft rows = []
      · rw [if_pos hg]
        show draft ++ "" = draft
        cases draft with
        | mk l =>
          show String.mk (l ++ []) = String.mk l
          exact congrArg String.mk (List.append_nil l)
      · rw [if_neg hg]
        rw [segLoop_text draft (bodyTagGroups draft rows) 0 hchain
          (fun g hgm => ⟨(hinv g hgm).2.1, (hinv g hgm).2.2.1⟩)
          (fun g _ => Nat.zero_le _)]
        rw [jsSliceFrom, List.drop_zero]
  · simp only [bodyTagPreviewSegments]
    by_cases hd : draft = ""
    · rw [if_pos hd]
      exact List.chain'_nil
    · rw [if_neg hd]
      by_cases hg : bodyTagGroups draft rows = []
      · rw [if_pos hg]
        exact List.chain'_singleton _
      · rw [if_neg hg]
        exact segLoop_chain draft _ 0
  · simp only [bodyTagPreviewSegments]
    by_cases hd : draft = ""
    · rw [if_pos hd, bodyTagGroups, if_pos (Or.inl hd)]
      rfl
    · rw [if_neg hd]
      by_cases hg : bodyTagGroups draft rows = []
      · rw [if_pos hg, hg]
        rfl
      · rw [if_neg hg]
        exact segLoop_groups draft _ 0 hchain (fun g hgm => (hinv g hgm).2.1)
          (fun g _ => Nat.zero_le _)
  · intro r _ hstale g hg hmem
    obtain ⟨_, _, gle, _, _, gmem⟩ := hinv g hg
    obtain ⟨_, _, hre⟩ := gmem r hmem
    omega

/-- Claim C7 witness: the amended theorem applied to the body "ab" with the
single annotation spanning 0..1. -/
theorem c7_witness :
    (∀ a ∈ [c7wRow], ∀ b ∈ [c7wRow],
      a.start_offset < a.end_offset → a.end_offset ≤ ("ab" : String).length →
      b.start_offset < b.end_offset → b.end_offset ≤ ("ab" : String).length →
      NonOverlapOrIdentical a b) ∧
      (segmentsText (bodyTagPreviewSegments "ab" [c7wRow]) = "ab" ∧
        List.Chain' (fun s1 s2 => segmentIsPlain s1 = false ∨ segmentIsPlain s2 = false)
          (bodyTagPreviewSegments "ab" [c7wRow]) ∧
        (bodyTagPreviewSegments "ab" [c7wRow]).filterMap segmentGroup =
          bodyTagGroups "ab" [c7wRow] ∧
        (bodyTagGroups "ab" [c7wRow]).Pairwise groupSpanLt ∧
        (∀ g ∈ bodyTagGroups "ab" [c7wRow], GroupInv "ab" [c7wRow] g) ∧
        (∀ r ∈ [c7wRow], r.start_offset < r.end_offset →
          r.end_offset ≤ ("ab" : String).length →
          ∃ g ∈ bodyTagGroups "ab" [c7wRow], r ∈ g.annotations) ∧
        ∀ r ∈ [c7wRow], ("ab" : String).length < r.end_offset →
          ∀ g ∈ bodyTagGroups "ab" [c7wRow], r ∉ g.annotations) :=
  ⟨by decide, c7_amended "ab" [c7wRow] (by decide)⟩

/-! ## Serialization lemmas for the round trip -/

theorem splitOnNewline_ne_nil (cs : List Char) : splitOnNewline cs ≠ [] := by
  cases cs with
  | nil => simp [splitOnNewline]
  | cons c rest =>
    rw [splitOnNewline]
    by_cases h : c = '\n'
    · rw [if_pos h]
      simp
    · rw [if_neg h]
      cases hsp : splitOnNewline rest <;> simp

theorem splitOnNewline_no_newline (cs : List Char) (h : '\n' ∉ cs) :
    splitOnNewline cs = [cs] := by
  induction cs with
  | nil => rfl
  | cons c rest ih =>
    have hc : ¬ c = '\n' := fun hh => h (hh ▸ List.mem_cons_self c rest)
    rw [splitOnNewline, if_neg hc, ih (fun hm => h (List.mem_cons_of_mem c hm))]

theorem splitOnNewline_append (cs ds : List Char) (h : '\n' ∉ cs) :
    splitOnNewline (cs ++ '\n' :: ds) = cs :: splitOnNewline ds := by
  induction cs with
  | nil =>
    show splitOnNewline ('\n' :: ds) = [] :: splitOnNewline ds
    rw [splitOnNewline, if_pos rfl]
  | cons c rest ih =>
    have hc : ¬ c = '\n' := fun hh => h (hh ▸ List.mem_cons_self c rest)
    show splitOnNewline (c :: (rest ++ '\n' :: ds)) = (c :: rest) :: splitOnNewline ds
    rw [splitOnNewline, if_neg hc, ih (fun hm => h (List.mem_cons_of_mem c hm))]

theorem normalizeNewlines_cons (c : Char) (rest : List Char) (hc : c ≠ '\r') :
    normalizeNewlines (c :: rest) = c :: normalizeNewlines rest := by
  rw [normalizeNewlines.eq_def]
  split
  · rename_i heq
    exact absurd heq (by simp)
  · rename_i heq
    injection heq with h1 _
    exact absurd h1 hc
  · rename_i heq
    injection heq with h1 _
    exact absurd h1 hc
  · rename_i heq
    injection heq with h1 h2
    subst h1
    subst h2
    rfl

theorem normalizeNewlines_crlf (rest : List Char) :
    normalizeNewlines ('\r' :: '\n' :: rest) = '\n' :: normalizeNewlines rest := rfl

theorem normalizeNewlines_cr (c2 : Char) (rest : List Char) (h : c2 ≠ '\n') :
    normalizeNewlines ('\r' :: c2 :: rest) = '\n' :: normalizeNewlines (c2 :: rest) := by
  rw [normalizeNewlines.eq_def]
  split
  · rename_i heq
    exact absurd heq (by simp)
  · rename_i heq
    injection heq with _ h2
    injection h2 with h3 _
    exact absurd h3 h
  · rename_i heq
    injection heq with _ h2
    subst h2
    rfl
  · rename_i hg heq
    injection heq with h1 _
    exact absurd h1.symm hg

theorem normalizeNewlines_eq_self (cs : List Char) (h : '\r' ∉ cs) :
    normalizeNewlines cs = cs := by
  induction cs with
  | nil => rfl
  | cons c rest ih =>
    have hc : c ≠ '\r' := fun hh => h (hh ▸ List.mem_cons_self c rest)
    rw [normalizeNewlines_cons c rest hc, ih (fun hm => h (List.mem_cons_of_mem c hm))]

theorem cr_not_mem_normalizeNewlines : ∀ cs : List Char, '\r' ∉ normalizeNewlines cs := by
  intro cs
  induction cs with
  | nil => simp [normalizeNewlines]
  | cons c rest ih =>
    by_cases hc : c = '\r'
    · subst hc
      cases rest with
      | nil => decide
      | cons c2 rest2 =>
        by_cases hc2 : c2 = '\n'
        · subst hc2
          rw [normalizeNewlines_crlf]
          rw [normalizeNewlines_cons _ _ (by decide)] at ih
          exact ih
        · rw [normalizeNewlines_cr c2 rest2 hc2]
          intro hmem
          rcases List.mem_cons.mp hmem with h | h
          · exact absurd h (by decide)
          · exact ih h
    · rw [normalizeNewlines_cons c rest hc]
      intro hmem
      rcases List.mem_cons.mp hmem with h | h
      · exact hc h.symm
      · exact ih h

theorem splitOnNewline_pieces : ∀ (cs piece : List Char),
    piece ∈ splitOnNewline cs → '\n' ∉ piece ∧ ∀ c ∈ piece, c ∈ cs := by
  intro cs
  induction cs with
  | nil =>
    intro piece hp
    have : piece = [] := by simpa [splitOnNewline] using hp
    subst this
    exact ⟨by simp, by simp⟩
  | cons c rest ih =>
    intro piece hp
    rw [splitOnNewline] at hp
    by_cases hc : c = '\n'
    · rw [if_pos hc] at hp
      rcases List.mem_cons.mp hp with rfl | hp
      · exact ⟨by simp, by simp⟩
      · obtain ⟨h1, h2⟩ := ih piece hp
        exact ⟨h1, fun ch hch => List.mem_cons_of_mem c (h2 ch hch)⟩
    · rw [if_neg hc] at hp
      cases hsp : splitOnNewline rest with
      | nil => exact absurd hsp (splitOnNewline_ne_nil rest)
      | cons line lines =>
        rw [hsp] at hp
        rcases List.mem_cons.mp hp with rfl | hp
        · have hline := ih line (by rw [hsp]; exact List.mem_cons_self _ _)
          constructor
          · intro hmem
            rcases List.mem_cons.mp hmem with h | h
            · exact hc h.symm
            · exact hline.1 h
          · intro ch hch
            rcases List.mem_cons.mp hch with rfl | h
            · exact List.mem_cons_self _ _
            · exact List.mem_cons_of_mem c (hline.2 ch h)
        · have := ih piece (by rw [hsp]; exact List.mem_cons_of_mem line hp)
          exact ⟨this.1, fun ch hch => List.mem_cons_of_mem c (this.2 ch hch)⟩

theorem jsTrimList_sublist (cs : List Char) : List.Sublist (jsTrimList cs) cs := by
  show List.Sublist (List.rdropWhile isJsWhitespace (List.dropWhile isJsWhitespace cs)) cs
  exact ((List.rdropWhile_prefix isJsWhitespace _).sublist).trans
    ((List.dropWhile_suffix isJsWhitespace).sublist)

theorem jsTrimList_idem (cs : List Char) : jsTrimList (jsTrimList cs) = jsTrimList cs := by
  have hdrop : List.dropWhile isJsWhitespace (jsTrimList cs) = jsTrimList cs := by
    cases hB : jsTrimList cs with
    | nil => simp
    | cons b B =>
      obtain ⟨t, ht⟩ := List.rdropWhile_prefix isJsWhitespace
        (List.dropWhile isJsWhitespace cs)
      have ht2 : jsTrimList cs ++ t = List.dropWhile isJsWhitespace cs := ht
      rw [hB] at ht2
      have hd : List.dropWhile isJsWhitespace cs = b :: (B ++ t) := by
        rw [← ht2, List.cons_append]
      have hidem := List.dropWhile_idempotent isJsWhitespace cs
      rw [hd] at hidem
      have hpb : isJsWhitespace b = false := by
        cases hq : isJsWhitespace b with
        | false => rfl
        | true =>
          rw [List.dropWhile_cons, if_pos hq] at hidem
          have hlen := congrArg List.length hidem
          have hsfx : List.IsSuffix (List.dropWhile isJsWhitespace (B ++ t)) (B ++ t) :=
            List.dropWhile_suffix _
          have hle := hsfx.sublist.length_le
          rw [List.length_cons] at hlen
          omega
      rw [List.dropWhile_cons, if_neg (by simp [hpb])]
  show List.rdropWhile isJsWhitespace (List.dropWhile isJsWhitespace (jsTrimList cs)) =
    jsTrimList cs
  rw [hdrop]
  show List.rdropWhile isJsWhitespace
      (List.rdropWhile isJsWhitespace (List.dropWhile isJsWhitespace cs)) =
    List.rdropWhile isJsWhitespace (List.dropWhile isJsWhitespace cs)
  exact List.rdropWhile_idempotent isJsWhitespace (List.dropWhile isJsWhitespace cs)

theorem dropBanner_mem (bt : List String) :
    ∀ (ls : List String) (n : Nat) (l : String),
      l ∈ dropBannerAndBlocked bt n ls → l ∈ ls ∧ l ≠ "" ∧ l ∉ bt := by
  intro ls
  induction ls with
  | nil => intro n l hl; simp [dropBannerAndBlocked] at hl
  | cons line rest ih =>
    intro n l hl
    rw [dropBannerAndBlocked] at hl
    split_ifs at hl with h1 h2 h3
    · obtain ⟨hin, hne, hnb⟩ := ih n l hl
      exact ⟨List.mem_cons_of_mem line hin, hne, hnb⟩
    · obtain ⟨hin, hne, hnb⟩ := ih (n + 1) l hl
      exact ⟨List.mem_cons_of_mem line hin, hne, hnb⟩
    · obtain ⟨hin, hne, hnb⟩ := ih (n + 1) l hl
      exact ⟨List.mem_cons_of_mem line hin, hne, hnb⟩
    · rcases List.mem_cons.mp hl with rfl | hl
      · exact ⟨List.mem_cons_self l rest, h1, h3⟩
      · obtain ⟨hin, hne, hnb⟩ := ih (n + 1) l hl
        exact ⟨List.mem_cons_of_mem line hin, hne, hnb⟩

theorem splitAndFilterLines_good (raw : String) (bt : List String) :
    ∀ l ∈ splitAndFilterLines raw bt,
      l ≠ "" ∧ l ∉ bt ∧ jsTrim l = l ∧ '\n' ∉ l.data ∧ '\r' ∉ l.data := by
  intro l hl
  simp only [splitAndFilterLines] at hl
  obtain ⟨hin, hne, hnb⟩ := dropBanner_mem bt _ 0 l hl
  obtain ⟨cs, hcs, hform⟩ := List.mem_map.mp hin
  obtain ⟨hnl, hsub⟩ := splitOnNewline_pieces _ cs hcs
  refine ⟨hne, hnb, ?_, ?_, ?_⟩
  · rw [← hform]
    show String.mk (jsTrimList (jsTrimList cs)) = String.mk (jsTrimList cs)
    rw [jsTrimList_idem]
  · rw [← hform]
    intro hmem
    exact hnl ((jsTrimList_sublist cs).subset hmem)
  · rw [← hform]
    intro hmem
    exact cr_not_mem_normalizeNewlines raw.data
      (hsub '\r' ((jsTrimList_sublist cs).subset hmem))

theorem format_single (row : ParsedLineRow) :
    formatParsedRowsToBody [row] =
      (if row.kind = ParsedLineKind.dialogue then row.speaker ++ "\n" ++ row.content
       else row.content) := rfl

theorem format_cons (row r2 : ParsedLineRow) (rest : List ParsedLineRow) :
    formatParsedRowsToBody (row :: r2 :: rest) =
      (if row.kind = ParsedLineKind.dialogue then row.speaker ++ "\n" ++ row.content
       else row.content) ++ "\n\n" ++ formatParsedRowsToBody (r2 :: rest) := rfl

theorem data_dialogue (sp cont : String) :
    (sp ++ "\n" ++ cont).data = sp.data ++ '\n' :: cont.data := by
  rw [String.data_append, String.data_append, List.append_assoc]
  rfl

theorem data_sep (a b : String) :
    (a ++ "\n\n" ++ b).data = a.data ++ '\n' :: '\n' :: b.data := by
  rw [String.data_append, String.data_append, List.append_assoc]
  rfl

theorem format_mem_chars : ∀ (rows : List ParsedLineRow) (c : Char),
    c ∈ (formatParsedRowsToBody rows).data →
    c = '\n' ∨ ∃ l ∈ flattenParsedRows rows, c ∈ l.data := by
  intro rows
  induction rows with
  | nil =>
    intro c hc
    have h0 : (formatParsedRowsToBody []).data = [] := rfl
    rw [h0] at hc
    simp at hc
  | cons row rest ih =>
    intro c hc
    cases rest with
    | nil =>
      rw [format_single] at hc
      by_cases hdia : row.kind = ParsedLineKind.dialogue
      · rw [if_pos hdia, data_dialogue] at hc
        rcases List.mem_append.mp hc with h1 | h1
        · exact Or.inr ⟨row.speaker, by simp [flattenParsedRows, hdia], h1⟩
        · rcases List.mem_cons.mp h1 with rfl | h1
          · exact Or.inl rfl
          · exact Or.inr ⟨row.content, by simp [flattenParsedRows, hdia], h1⟩
      · rw [if_neg hdia] at hc
        exact Or.inr ⟨row.content, by simp [flattenParsedRows, hdia], hc⟩
    | cons r2 rest2 =>
      rw [format_cons, data_sep] at hc
      rcases List.mem_append.mp hc with h1 | h1
      · by_cases hdia : row.kind = ParsedLineKind.dialogue
        · rw [if_pos hdia, data_dialogue] at h1
          rcases List.mem_append.mp h1 with h2 | h2
          · exact Or.inr ⟨row.speaker, by simp [flattenParsedRows, hdia], h2⟩
          · rcases List.mem_cons.mp h2 with rfl | h2
            · exact Or.inl rfl
            · exact Or.inr ⟨row.content, by simp [flattenParsedRows, hdia], h2⟩
        · rw [if_neg hdia] at h1
          exact Or.inr ⟨row.content, by simp [flattenParsedRows, hdia], h1⟩
      · rcases List.mem_cons.mp h1 with rfl | h1
        · exact Or.inl rfl
        · rcases List.mem_cons.mp h1 with rfl | h1
          · exact Or.inl rfl
          · rcases ih c h1 with h2 | ⟨l, hlm, hcl⟩
            · exact Or.inl h2
            · refine Or.inr ⟨l, ?_, hcl⟩
              rw [flattenParsedRows]
              exact List.mem_append_right _ hlm

theorem format_no_cr (rows : List ParsedLineRow)
    (h : ∀ l ∈ flattenParsedRows rows, '\r' ∉ l.data) :
    '\r' ∉ (formatParsedRowsToBody rows).data := by
  intro hmem
  rcases format_mem_chars rows '\r' hmem with h1 | ⟨l, hl, hc⟩
  · exact absurd h1 (by decide)
  · exact h l hl hc

theorem splitOnNewline_format : ∀ rows : List ParsedLineRow,
    (∀ l ∈ flattenParsedRows rows, '\n' ∉ l.data) →
    splitOnNewline (formatParsedRowsToBody rows).data = bodyPieces rows := by
  intro rows
  induction rows with
  | nil => intro _; rfl
  | cons row rest ih =>
    intro h
    cases rest with
    | nil =>
      rw [format_single]
      by_cases hdia : row.kind = ParsedLineKind.dialogue
      · rw [if_pos hdia, data_dialogue,
          splitOnNewline_append _ _ (h row.speaker (by simp [flattenParsedRows, hdia])),
          splitOnNewline_no_newline _ (h row.content (by simp [flattenParsedRows, hdia]))]
        simp [bodyPieces, rowLines, hdia]
      · rw [if_neg hdia,
          splitOnNewline_no_newline _ (h row.content (by simp [flattenParsedRows, hdia]))]
        simp [bodyPieces, rowLines, hdia]
    | cons r2 rest2 =>
      have hih := ih (fun l hl => h l (by
        rw [flattenParsedRows]
        exact List.mem_append_right _ hl))
      have hnl : splitOnNewline ('\n' :: (formatParsedRowsToBody (r2 :: rest2)).data) =
          [] :: splitOnNewline (formatParsedRowsToBody (r2 :: rest2)).data := by
        rw [splitOnNewline, if_pos rfl]
      rw [format_cons]
      by_cases hdia : row.kind = ParsedLineKind.dialogue
      · rw [if_pos hdia, data_sep, data_dialogue, List.append_assoc, List.cons_append,
          splitOnNewline_append _ _ (h row.speaker (by simp [flattenParsedRows, hdia])),
          splitOnNewline_append _ _ (h row.content (by simp [flattenParsedRows, hdia])),
          hnl, hih]
        simp [bodyPieces, rowLines, hdia]
      · rw [if_neg hdia, data_sep,
          splitOnNewline_append _ _ (h row.content (by simp [flattenParsedRows, hdia])),
          hnl, hih]
        simp [bodyPieces, rowLines, hdia]

theorem bodyPieces_eq (rows : List ParsedLineRow) :
    bodyPieces rows = (bodyLines rows).map String.data := by
  induction rows with
  | nil => rfl
  | cons row rest ih =>
    cases rest with
    | nil => rfl
    | cons r2 rest2 =>
      show (rowLines row).map String.data ++ [] :: bodyPieces (r2 :: rest2) =
        (rowLines row ++ "" :: bodyLines (r2 :: rest2)).map String.data
      rw [ih, List.map_append, List.map_cons]

theorem map_trim_id (ls : List String) (h : ∀ l ∈ ls, jsTrim l = l ∨ l = "") :
    (ls.map String.data).map (fun cs => String.mk (jsTrimList cs)) = ls := by
  induction ls with
  | nil => rfl
  | cons l rest ih =>
    simp only [List.map_cons]
    rw [ih (fun x hx => h x (List.mem_cons_of_mem l hx))]
    rcases h l (List.mem_cons_self l rest) with h1 | h1
    · show jsTrim l :: rest = l :: rest
      rw [h1]
    · subst h1
      rfl

theorem bodyLines_mem (rows : List ParsedLineRow) :
    ∀ l ∈ bodyLines rows, l = "" ∨ l ∈ flattenParsedRows rows := by
  induction rows with
  | nil =>
    intro l hl
    left
    simpa [bodyLines] using hl
  | cons row rest ih =>
    intro l hl
    cases rest with
    | nil =>
      right
      rw [flattenParsedRows]
      exact List.mem_append_left _ hl
    | cons r2 rest2 =>
      have hl2 : l ∈ rowLines row ++ "" :: bodyLines (r2 :: rest2) := hl
      rcases List.mem_append.mp hl2 with h1 | h1
      · right
        rw [flattenParsedRows]
        exact List.mem_append_left _ h1
      · rcases List.mem_cons.mp h1 with rfl | h1
        · left
          rfl
        · rcases ih l h1 with h2 | h2
          · left
            exact h2
          · right
            rw [flattenParsedRows]
            exact List.mem_append_right _ h2

theorem dropBanner_keep (bt : List String) (n : Nat) (line : String) (rest : List String)
    (h1 : line ≠ "") (h2 : isBoilerplateLine line = false) (h3 : line ∉ bt) :
    dropBannerAndBlocked bt n (line :: rest) =
      line :: dropBannerAndBlocked bt (n + 1) rest := by
  rw [dropBannerAndBlocked, if_neg h1, if_neg (by simp [h2]), if_neg h3]

theorem dropBanner_empty (bt : List String) (n : Nat) (rest : List String) :
    dropBannerAndBlocked bt n ("" :: rest) = dropBannerAndBlocked bt n rest := by
  rw [dropBannerAndBlocked, if_pos rfl]

theorem dropBanner_bodyLines (bt : List String) :
    ∀ rows : List ParsedLineRow,
      (∀ l ∈ flattenParsedRows rows,
        l ≠ "" ∧ l ∉ bt ∧ isBoilerplateLine l = false) →
      ∀ n, dropBannerAndBlocked bt n (bodyLines rows) = flattenParsedRows rows := by
  intro rows
  induction rows with
  | nil =>
    intro _ n
    show dropBannerAndBlocked bt n [""] = []
    rw [dropBanner_empty]
    rfl
  | cons row rest ih =>
    intro h n
    have hmemhead : ∀ l ∈ rowLines row, l ∈ flattenParsedRows (row :: rest) := by
      intro l hl
      rw [flattenParsedRows]
      exact List.mem_append_left _ hl
    cases rest with
    | nil =>
      show dropBannerAndBlocked bt n (rowLines row) = flattenParsedRows [row]
      by_cases hdia : row.kind = ParsedLineKind.dialogue
      · have hs := h row.speaker (by simp [flattenParsedRows, hdia])
        have hc := h row.content (by simp [flattenParsedRows, hdia])
        rw [show rowLines row = [row.speaker, row.content] from by
            rw [rowLines, if_pos hdia],
          dropBanner_keep bt n _ _ hs.1 hs.2.2 hs.2.1,
          dropBanner_keep bt (n + 1) _ _ hc.1 hc.2.2 hc.2.1]
        simp [flattenParsedRows, hdia, dropBannerAndBlocked]
      · have hc := h row.content (by simp [flattenParsedRows, hdia])
        rw [show rowLines row = [row.content] from by rw [rowLines, if_neg hdia],
          dropBanner_keep bt n _ _ hc.1 hc.2.2 hc.2.1]
        simp [flattenParsedRows, hdia, dropBannerAndBlocked]
    | cons r2 rest2 =>
      have hih := ih (fun l hl => h l (by
        rw [flattenParsedRows]
        exact List.mem_append_right _ hl))
      show dropBannerAndBlocked bt n (rowLines row ++ "" :: bodyLines (r2 :: rest2)) =
        flattenParsedRows (row :: r2 :: rest2)
      by_cases hdia : row.kind = ParsedLineKind.dialogue
      · have hs := h row.speaker (by simp [flattenParsedRows, hdia])
        have hc := h row.content (by simp [flattenParsedRows, hdia])
        rw [show rowLines row = [row.speaker, row.content] from by
            rw [rowLines, if_pos hdia]]
        show dropBannerAndBlocked bt n
            (row.speaker :: row.content :: "" :: bodyLines (r2 :: rest2)) = _
        rw [dropBanner_keep bt n _ _ hs.1 hs.2.2 hs.2.1,
          dropBanner_keep bt (n + 1) _ _ hc.1 hc.2.2 hc.2.1,
          dropBanner_empty, hih (n + 2)]
        simp [flattenParsedRows, hdia]
      · have hc := h row.content (by simp [flattenParsedRows, hdia])
        rw [show rowLines row = [row.content] from by rw [rowLines, if_neg hdia]]
        show dropBannerAndBlocked bt n (row.content :: "" :: bodyLines (r2 :: rest2)) = _
        rw [dropBanner_keep bt n _ _ hc.1 hc.2.2 hc.2.1, dropBanner_empty, hih (n + 1)]
        simp [flattenParsedRows, hdia]

theorem splitAndFilter_format (rows : List ParsedLineRow) (bt : List String)
    (h : ∀ l ∈ flattenParsedRows rows,
      jsTrim l = l ∧ '\n' ∉ l.data ∧ '\r' ∉ l.data ∧ l ≠ "" ∧ l ∉ bt ∧
        isBoilerplateLine l = false) :
    splitAndFilterLines (formatParsedRowsToBody rows) bt = flattenParsedRows rows := by
  simp only [splitAndFilterLines]
  rw [normalizeNewlines_eq_self _ (format_no_cr rows (fun l hl => (h l hl).2.2.1)),
    splitOnNewline_format rows (fun l hl => (h l hl).2.1),
    bodyPieces_eq,
    map_trim_id (bodyLines rows) (fun l hl => by
      rcases bodyLines_mem rows l hl with h1 | h1
      · exact Or.inr h1
      · exact Or.inl (h l h1).1)]
  exact dropBanner_bodyLines bt rows (fun l hl =>
    ⟨(h l hl).2.2.2.1, (h l hl).2.2.2.2.1, (h l hl).2.2.2.2.2⟩) 0

/-! ## Claim C3: round-trip stability of the classifier -/

/-- Claim C3 counterexample: for the raw text
"機能一覧\na\nsekai viewer z\nb" with no blocked terms, no line rules and no
known speakers, the first parse keeps the banner-like line
"sekai viewer z" (it sits at non-empty index 2, beyond the two-line banner
window), but after serialization it sits at non-empty index 1, is dropped
by the banner filter, and the re-parse returns a different row list, so the
round trip is NOT stable in general. -/
theorem c3_counterexample :
    parseScriptLines
        (formatParsedRowsToBody (parseScriptLines c3Raw [] (fun _ => none) []))
        [] (fun _ => none) [] ≠
      parseScriptLines c3Raw [] (fun _ => none) [] := by
  decide

/-- Claim C3, amended: the round trip IS stable whenever no line of the
first parse's output is boilerplate-like (the unconditional claim fails
because serialization can move a banner-like line into the two-line window
of the boilerplate filter): serializing the parsed rows with
`formatParsedRowsToBody` and re-classifying with the same blocked terms,
line rules and known speakers reproduces exactly the same rows. -/
theorem c3_amended (raw : String) (blockedTerms : List String)
    (rules : String → Option LineClassification) (speakers : List String)
    (hban : ∀ l ∈ flattenParsedRows (parseScriptLines raw blockedTerms rules speakers),
      isBoilerplateLine l = false) :
    parseScriptLines
        (formatParsedRowsToBody (parseScriptLines raw blockedTerms rules speakers))
        blockedTerms rules speakers =
      parseScriptLines raw blockedTerms rules speakers := by
  have hflat : flattenParsedRows (parseScriptLines raw blockedTerms rules speakers) =
      splitAndFilterLines raw (normalizeTerms blockedTerms) :=
    flattenParsedRows_parseLoopFuel rules (normalizeTerms speakers) _
      (splitAndFilterLines raw (normalizeTerms blockedTerms)) le_rfl
  have hgood := splitAndFilterLines_good raw (normalizeTerms blockedTerms)
  have hser : splitAndFilterLines
      (formatParsedRowsToBody (parseScriptLines raw blockedTerms rules speakers))
      (normalizeTerms blockedTerms) =
      flattenParsedRows (parseScriptLines raw blockedTerms rules speakers) := by
    refine splitAndFilter_format _ _ ?_
    intro l hl
    have hl2 := hl
    rw [hflat] at hl2
    obtain ⟨hne, hnb, htrim, hnl, hcr⟩ := hgood l hl2
    exact ⟨htrim, hnl, hcr, hne, hnb, hban l hl⟩
  show parseLoop rules (normalizeTerms speakers)
      (splitAndFilterLines
        (formatParsedRowsToBody (parseScriptLines raw blockedTerms rules speakers))
        (normalizeTerms blockedTerms)) =
    parseScriptLines raw blockedTerms rules speakers
  rw [hser, hflat]
  exact rfl

/-- Claim C3 witness: the amended round-trip theorem applied to the two-line
body "x\ny" with no blocked terms, rules or speakers. -/
theorem c3_witness :
    (∀ l ∈ flattenParsedRows (parseScriptLines "x\ny" [] (fun _ => none) []),
      isBoilerplateLine l = false) ∧
      parseScriptLines
          (formatParsedRowsToBody (parseScriptLines "x\ny" [] (fun _ => none) []))
          [] (fun _ => none) [] =
        parseScriptLines "x\ny" [] (fun _ => none) [] :=
  ⟨by decide, c3_amended "x\ny" [] (fun _ => none) [] (by decide)⟩
